import Mathlib

/-!
# Latency-profiler timer log (`src/core/profiling/timers.c`)

A shallow embedding of the timer log of `timers.c` (the branch compiled when
`GRPC_LATENCY_PROFILER` is defined and `GRPC_TIMERS_RDTSC` is not), followed by
theorems about it.

Modelling conventions.

* A C `int` is an `Int`; the one arithmetic result that is stored back into an
  `int` (`num_entries++`) goes through `wrap_int`.
* The entry array `log->log` is a `List` of cells whose length is the number of
  elements that `gpr_malloc` was asked for.  `cell` reads a slot and `poke`
  writes one.  An access outside the block is undefined in C and its effect
  depends on what lies beyond the block; there `cell` and `poke` only keep the
  functions total (a default entry, no change) and say nothing about the code.
  The theorems about a log created with a positive limit prove that every slot
  read or written is inside the block.
* `const char *` values are the strings they point to.
* The stream behind `log->fp` is not part of the log object: every operation
  receives the `world` (that stream plus a counter of report runs) and returns
  the new one.  `FILE` is only the identity of the stream.
* `gpr_now()` is an input: `grpc_timers_log_add` receives the value the clock
  yields when `timer_now` reads it.
* In the functions of the log the critical section between `gpr_mu_lock` and
  `gpr_mu_unlock` is one step.  The section on threads runs the same statements
  one at a time, under any schedule, with the mutex as the spec describes it,
  and `finish_locked` shows that a whole critical section is one call of
  `grpc_timers_log_add`.
* `fprintf` is the C library's; `vformat` models the part of its format
  language that is needed here, and an output error is scripted by the stream.
-/

namespace Timers

/-! ## Machine integers -/

/-- Largest value of a C `int`. -/
def INT_MAX : Int := 2147483647

/-- The value an `int` object holds after the mathematical result `x` is stored into it. -/
def wrap_int (x : Int) : Int := (x + 2147483648) % 4294967296 - 2147483648

/-! ## Data model -/

/-- Record `gpr_timespec`: the value of `gpr_now()`. -/
structure gpr_timespec where
  tv_sec : Int
  tv_nsec : Int
deriving DecidableEq, Inhabited

/-- Record `grpc_timer_entry`. -/
structure grpc_timer_entry where
  timer : gpr_timespec
  tag : String
  seq : Int
  file : String
  line : Int
deriving DecidableEq, Inhabited

/-- Identity of a stdio stream (`FILE *`). -/
structure FILE where
  fd : Nat
deriving DecidableEq, Inhabited

/-- Record `struct grpc_timers_log`, without the mutex. -/
structure grpc_timers_log where
  log : List grpc_timer_entry
  num_entries : Int
  capacity : Int
  capacity_limit : Int
  fp : FILE
  fmt : String
deriving DecidableEq

/-- Read of `log->log[i]` for a slot inside the block; outside the block, where the C read
is undefined, a default entry. -/
def cell (mem : List grpc_timer_entry) (i : Int) : grpc_timer_entry :=
  if 0 ≤ i then mem.getD i.toNat default else default

/-- Write of `e` to `log->log[i]` for a slot inside the block; outside the block, where the
C write is undefined, no change. -/
def poke (mem : List grpc_timer_entry) (i : Int) (e : grpc_timer_entry) :
    List grpc_timer_entry :=
  if 0 ≤ i then mem.set i.toNat e else mem

/-! ## The C library: formatted output -/

/-- One variadic argument of `fprintf`. -/
inductive printf_arg where
  | int (v : Int)
  | str (s : String)
deriving DecidableEq

/-- Position of the scanner inside a format string. -/
inductive scan where
  | text
  | lead (digs : List Char)
  | flags (pos : Option Nat) (zero left : Bool)
  | width (pos : Option Nat) (zero left : Bool) (w : Nat)
  | len (pos : Option Nat) (zero left : Bool) (w : Nat) (ls : Nat)
deriving DecidableEq

/-- Value of a run of decimal digit characters. -/
def digits_value (ds : List Char) : Nat :=
  ds.foldl (fun acc c => 10 * acc + (c.toNat - 48)) 0

/-- Field of minimum width `w` made of a sign and a body. -/
def pad_field (zero left : Bool) (w : Nat) (sign body : List Char) : List Char :=
  let n := sign.length + body.length
  if left then sign ++ body ++ List.replicate (w - n) ' '
  else if zero then sign ++ List.replicate (w - n) '0' ++ body
  else List.replicate (w - n) ' ' ++ sign ++ body

/-- Text of one conversion `c` applied to argument `a`; `none` when the model does not
cover the conversion or the argument has the wrong kind. -/
def convert (c : Char) (zero left : Bool) (w : Nat) (a : printf_arg) : Option (List Char) :=
  match a with
  | .int v =>
    if c = 'd' ∨ c = 'i' then
      some (pad_field zero left w (if v < 0 then ['-'] else []) (Nat.toDigits 10 v.natAbs))
    else none
  | .str s =>
    if c = 's' then some (pad_field false left w [] s.toList) else none

/-- Argument selected by a conversion: the `pos`-th one for `%pos$`, else the next unused. -/
def pick (args : List printf_arg) (pos : Option Nat) (next : Nat) : Option printf_arg :=
  match pos with
  | some p => if p = 0 then none else args.get? (p - 1)
  | none => args.get? next

/-- Index of the next unused argument after a conversion. -/
def bump (pos : Option Nat) (next : Nat) : Nat :=
  match pos with
  | some _ => next
  | none => next + 1

/-- Scanner of a format string: one character per step.  Covers `%%`, `%n$`, the flags
`0` and `-`, a decimal width, the length modifiers `l` and `ll`, and the conversions
`d`, `i` and `s`; anything else yields `none`. -/
def render : scan → Nat → List printf_arg → List Char → Option (List Char)
  | .text, _, _, [] => some []
  | _, _, _, [] => none
  | .text, next, args, c :: rest =>
    if c = '%' then render (.lead []) next args rest
    else (render .text next args rest).map (c :: ·)
  | .lead digs, next, args, c :: rest =>
    if c.isDigit then render (.lead (digs ++ [c])) next args rest
    else if c = '$' then
      if digs = [] ∨ digs.head? = some '0' then none
      else render (.flags (some (digits_value digs)) false false) next args rest
    else if c = '%' then
      if digs = [] then (render .text next args rest).map ('%' :: ·) else none
    else if c = '-' then
      if digs = [] then render (.flags none false true) next args rest else none
    else
      let zero := digs.head? = some '0'
      let w := digits_value digs
      if c = 'l' then render (.len none zero false w 1) next args rest
      else
        (pick args none next).bind fun a =>
        (convert c zero false w a).bind fun piece =>
        (render .text (bump none next) args rest).map (piece ++ ·)
  | .flags pos zero left, next, args, c :: rest =>
    if c = '0' then render (.flags pos true left) next args rest
    else if c = '-' then render (.flags pos zero true) next args rest
    else if c.isDigit then render (.width pos zero left (c.toNat - 48)) next args rest
    else if c = 'l' then render (.len pos zero left 0 1) next args rest
    else
      (pick args pos next).bind fun a =>
      (convert c zero left 0 a).bind fun piece =>
      (render .text (bump pos next) args rest).map (piece ++ ·)
  | .width pos zero left w, next, args, c :: rest =>
    if c.isDigit then render (.width pos zero left (10 * w + (c.toNat - 48))) next args rest
    else if c = 'l' then render (.len pos zero left w 1) next args rest
    else
      (pick args pos next).bind fun a =>
      (convert c zero left w a).bind fun piece =>
      (render .text (bump pos next) args rest).map (piece ++ ·)
  | .len pos zero left w ls, next, args, c :: rest =>
    if c = 'l' then
      if ls < 2 then render (.len pos zero left w (ls + 1)) next args rest else none
    else
      (pick args pos next).bind fun a =>
      (convert c zero left w a).bind fun piece =>
      (render .text (bump pos next) args rest).map (piece ++ ·)

/-- Text that `fprintf` produces for a format and its arguments. -/
def vformat (fmt : String) (args : List printf_arg) : Option String :=
  (render .text 0 args fmt.toList).map String.mk

/-- State of the stream behind a `FILE *`.  `data` is the text the stream accepted, one
item per successful `fprintf`; `calls` records every `fprintf` made on it; `faults`
scripts the coming output attempts (`true`: the attempt fails). -/
structure stream where
  data : List String
  calls : List (String × List printf_arg)
  faults : List Bool
deriving DecidableEq

/-- Library call `fprintf(fp, fmt, ...)` on the stream `fp` designates: the new stream and the return value
(number of characters, or a negative value on failure). -/
def fprintf (st : stream) (fmt : String) (args : List printf_arg) : stream × Int :=
  let st1 := { st with calls := st.calls ++ [(fmt, args)] }
  match vformat fmt args with
  | none => (st1, -1)
  | some text =>
    match st.faults with
    | true :: later => ({ st1 with faults := later }, -1)
    | false :: later => ({ st1 with faults := later, data := st.data ++ [text] }, text.length)
    | [] => ({ st1 with data := st.data ++ [text] }, text.length)

/-- What the operations of the log act on besides the log object: the stream that
`log->fp` designates, and the number of runs of `log_report_locked` so far. -/
structure world where
  out : stream
  reports : Nat
deriving DecidableEq

/-! ## The timer log -/

/-- Function `timer_now`: stores the clock value in `tm->timer` and returns 1. -/
def timer_now (tm : grpc_timer_entry) (now : gpr_timespec) : grpc_timer_entry × Int :=
  ({ tm with timer := now }, 1)

/-- Function `grpc_timers_log_create`, on the path where both allocations succeed. -/
def grpc_timers_log_create (capacity_limit : Int) (dump : FILE) (fmt : String) :
    grpc_timers_log :=
  { log := List.replicate capacity_limit.toNat default
    num_entries := 0
    capacity := capacity_limit
    capacity_limit := capacity_limit
    fp := dump
    fmt := fmt }

/-- Variadic arguments that `log_report_locked` passes to `fprintf` for one entry. -/
def entry_args (entry : grpc_timer_entry) : List printf_arg :=
  [.int entry.timer.tv_sec, .int entry.timer.tv_nsec, .str entry.tag, .int entry.seq,
   .str entry.file, .int entry.line]

/-- Function `log_report_locked`. -/
def log_report_locked (log : grpc_timers_log) (w : world) : grpc_timers_log × world :=
  let fmt := log.fmt
  let out := (List.range log.num_entries.toNat).foldl
    (fun o (i : Nat) => (fprintf o fmt (entry_args (cell log.log i))).1) w.out
  ({ log with num_entries := 0 }, { out := out, reports := w.reports + 1 })

/-- Function `grpc_timers_log_destroy`: the log object is released, the world remains. -/
def grpc_timers_log_destroy (log : grpc_timers_log) (w : world) : world :=
  (log_report_locked log w).2

/-- Function `grpc_timers_log_add`; `now` is what `gpr_now()` yields inside `timer_now`. -/
def grpc_timers_log_add (log : grpc_timers_log) (w : world) (now : gpr_timespec)
    (tag : String) (seq : Int) (file : String) (line : Int) : grpc_timers_log × world :=
  let r := if log.num_entries = log.capacity_limit then log_report_locked log w else (log, w)
  let i := r.1.num_entries
  let log1 := { r.1 with num_entries := wrap_int (r.1.num_entries + 1) }
  let entry := (timer_now (cell log1.log i) now).1
  let entry := { entry with tag := tag, seq := seq, file := file, line := line }
  ({ log1 with log := poke log1.log i entry }, r.2)

/-- The format string that `grpc_timers_log_global_init` installs. -/
def default_fmt : String := "TIMER %1$ld.%2$09d %3$s seq %4$d @ %5$s:%6$d\n"

/-- The stream `stdout`. -/
def stdout : FILE := ⟨1⟩

/-- Function `grpc_timers_log_global_init` with the profiler compiled in: the value it
assigns to the global pointer `grpc_timers_log_global` (whatever that held before). -/
def grpc_timers_log_global_init (_before : Option grpc_timers_log) : Option grpc_timers_log :=
  some (grpc_timers_log_create 100000 stdout default_fmt)

/-- Function `grpc_timers_log_global_destroy` with the profiler compiled in, applied to the
object the global pointer designates; `none` when the pointer is null, which the function
dereferences. -/
def grpc_timers_log_global_destroy (global : Option grpc_timers_log) (w : world) :
    Option world :=
  match global with
  | some log => some (grpc_timers_log_destroy log w)
  | none => none

/-- What a program that uses only the global log can observe: the object behind the global
pointer (`none`: the pointer is null, no log was allocated) and the world. -/
structure program where
  global : Option grpc_timers_log
  w : world
deriving DecidableEq

/-! ## Runs -/

/-- One call of `grpc_timers_log_add`: the clock value it reads and its four arguments. -/
structure add_call where
  now : gpr_timespec
  tag : String
  seq : Int
  file : String
  line : Int
deriving DecidableEq, Inhabited

/-- The entry that a call stores. -/
def add_call.entry (k : add_call) : grpc_timer_entry :=
  { timer := k.now, tag := k.tag, seq := k.seq, file := k.file, line := k.line }

/-- One call of `grpc_timers_log_add` on a log and its world. -/
def add_one (s : grpc_timers_log × world) (k : add_call) : grpc_timers_log × world :=
  grpc_timers_log_add s.1 s.2 k.now k.tag k.seq k.file k.line

/-- A sequence of calls of `grpc_timers_log_add`, in order. -/
def add_all (s : grpc_timers_log × world) (ks : List add_call) : grpc_timers_log × world :=
  ks.foldl add_one s

/-! ## The inactive build -/

namespace inactive

/-- Function `grpc_timers_log_global_init` when `GRPC_LATENCY_PROFILER` is not defined: an
empty body. -/
def grpc_timers_log_global_init (p : program) : program := p

/-- Function `grpc_timers_log_global_destroy` when `GRPC_LATENCY_PROFILER` is not defined:
an empty body. -/
def grpc_timers_log_global_destroy (p : program) : program := p

/-- Modelled from the spec: the append operation of the inactive build.  `timers.c` defines
no `grpc_timers_log_add` in that build and the header that call sites use is not among the
sources; the spec says that `append` then compiles to a no-operation. -/
def append (p : program) (_k : add_call) : program := p

/-- One call made by a program in the inactive build. -/
inductive call where
  | init
  | add (k : add_call)
  | destroy

/-- Effect of one call in the inactive build. -/
def call.run (p : program) : call → program
  | .init => grpc_timers_log_global_init p
  | .add k => append p k
  | .destroy => grpc_timers_log_global_destroy p

/-- Effect of a sequence of calls in the inactive build. -/
def run_all (p : program) (cs : List call) : program :=
  cs.foldl call.run p

end inactive

/-- A stream that has accepted nothing yet and whose coming attempts follow `faults`. -/
def fresh_stream (faults : List Bool) : stream :=
  { data := [], calls := [], faults := faults }

/-- The world before the log is used. -/
def fresh_world (faults : List Bool) : world :=
  { out := fresh_stream faults, reports := 0 }

/-- The request that `log_report_locked` makes of `fprintf` for one entry. -/
def request (fmt : String) (e : grpc_timer_entry) : String × List printf_arg :=
  (fmt, entry_args e)

/-- The text of the record of one entry under a format. -/
def record_text (fmt : String) (e : grpc_timer_entry) : Option String :=
  vformat fmt (entry_args e)

/-- Entries in the slots `0 .. num_entries - 1`, in slot order. -/
def buffered (l : grpc_timers_log) : List grpc_timer_entry :=
  (List.range l.num_entries.toNat).map fun (i : Nat) => cell l.log i

/-- One `fprintf` per entry of a list, in order, on one stream. -/
def write_all (fmt : String) (o : stream) (es : List grpc_timer_entry) : stream :=
  es.foldl (fun o e => (fprintf o fmt (entry_args e)).1) o

/-- A log that `grpc_timers_log_create` made with limit `c` and that has been used only
through `grpc_timers_log_add`. -/
def wf (c : Int) (l : grpc_timers_log) : Prop :=
  l.capacity_limit = c ∧ l.capacity = c ∧ l.log.length = c.toNat ∧
    0 ≤ l.num_entries ∧ l.num_entries ≤ c

/-- The sequence number that a request hands to `fprintf` (its fourth variadic argument). -/
def request_seq (r : String × List printf_arg) : Option Int :=
  match r.2.get? 3 with
  | some (.int v) => some v
  | _ => none

/-- Three sample calls, with sequence numbers 0, 1, 2. -/
def three_calls : List add_call :=
  [⟨⟨5, 1⟩, "a", 0, "x.c", 10⟩, ⟨⟨5, 2⟩, "b", 1, "x.c", 11⟩, ⟨⟨5, 3⟩, "c", 2, "y.c", 12⟩]

/-- What a stream accepts out of a list of attempted records (`none`: the record could not
be formatted) under a fault script: a failed attempt is skipped, the next one is tried. -/
def accepted : List Bool → List (Option String) → List String
  | _, [] => []
  | fs, none :: ts => accepted fs ts
  | true :: fs, some _ :: ts => accepted fs ts
  | false :: fs, some t :: ts => t :: accepted fs ts
  | [], some t :: ts => t :: accepted [] ts

/-- A number printed in decimal and filled with zeros on the left up to nine characters. -/
def nine_digits (n : Int) : String :=
  String.mk (List.replicate (9 - (toString n).length) '0') ++ toString n

instance (c : Int) (l : grpc_timers_log) : Decidable (wf c l) :=
  inferInstanceAs
    (Decidable (l.capacity_limit = c ∧ l.capacity = c ∧ l.log.length = c.toNat ∧
      0 ≤ l.num_entries ∧ l.num_entries ≤ c))

/-- The index `i` of the slot `&log->log[i]` that `grpc_timers_log_add` takes for its entry:
the value of `num_entries` once the report of a full buffer, if any, has run. -/
def add_slot (l : grpc_timers_log) (w : world) : Int :=
  (if l.num_entries = l.capacity_limit then log_report_locked l w else (l, w)).1.num_entries

/-- Order of clock values: `a` is not later than `b`. -/
def ts_le (a b : gpr_timespec) : Prop :=
  a.tv_sec < b.tv_sec ∨ (a.tv_sec = b.tv_sec ∧ a.tv_nsec ≤ b.tv_nsec)

instance (a b : gpr_timespec) : Decidable (ts_le a b) :=
  inferInstanceAs
    (Decidable (a.tv_sec < b.tv_sec ∨ (a.tv_sec = b.tv_sec ∧ a.tv_nsec ≤ b.tv_nsec)))

/-- The timestamp that a request hands to `fprintf` (its first two variadic arguments). -/
def request_stamp (r : String × List printf_arg) : Option gpr_timespec :=
  match r.2 with
  | .int sec :: .int nsec :: _ => some ⟨sec, nsec⟩
  | _ => none

/-! ## Threads -/

/-- Where a thread stands inside a call of `grpc_timers_log_add`: not in a call, or past
the named line of the body (source lines 134 to 145) of the call `k`, with `i` the index
of the slot it took. -/
inductive stage where
  | idle
  | locked (k : add_call)
  | checked (k : add_call)
  | indexed (k : add_call) (i : Int)
  | stamped (k : add_call) (i : Int)
  | tagged (k : add_call) (i : Int)
  | numbered (k : add_call) (i : Int)
  | filed (k : add_call) (i : Int)
  | lined (k : add_call) (i : Int)
deriving DecidableEq

/-- A thread: the calls of `grpc_timers_log_add` it still has to make, and where it stands. -/
structure thread where
  todo : List add_call
  pos : stage
deriving DecidableEq

/-- Threads sharing one log: the log, its world, the mutex `log->mu` (`some t`: held by
thread `t`) and the threads. -/
structure machine where
  log : grpc_timers_log
  w : world
  mu : Option Nat
  threads : List thread
deriving DecidableEq

/-- The next statement of the body of `grpc_timers_log_add` between `gpr_mu_lock` and
`gpr_mu_unlock`, for a thread at `p`: the stage it reaches and the log and world it
leaves. -/
def body (p : stage) (s : grpc_timers_log × world) : stage × (grpc_timers_log × world) :=
  match p with
  | .idle => (.idle, s)
  | .locked k =>
    (.checked k, if s.1.num_entries = s.1.capacity_limit then log_report_locked s.1 s.2 else s)
  | .checked k =>
    (.indexed k s.1.num_entries,
      ({ s.1 with num_entries := wrap_int (s.1.num_entries + 1) }, s.2))
  | .indexed k i =>
    (.stamped k i, ({ s.1 with log := poke s.1.log i (timer_now (cell s.1.log i) k.now).1 }, s.2))
  | .stamped k i =>
    (.tagged k i, ({ s.1 with log := poke s.1.log i { cell s.1.log i with tag := k.tag } }, s.2))
  | .tagged k i =>
    (.numbered k i,
      ({ s.1 with log := poke s.1.log i { cell s.1.log i with seq := k.seq } }, s.2))
  | .numbered k i =>
    (.filed k i, ({ s.1 with log := poke s.1.log i { cell s.1.log i with file := k.file } }, s.2))
  | .filed k i =>
    (.lined k i, ({ s.1 with log := poke s.1.log i { cell s.1.log i with line := k.line } }, s.2))
  | .lined k i => (.lined k i, s)

/-- Modelled from the spec: `gpr_mu_lock`, which is not among the sources.  The lock is the
mutual-exclusion primitive of the spec: a call by thread `t` returns, with `t` as the
holder, only when no thread holds the lock; `none` says that the caller keeps waiting. -/
def gpr_mu_lock (mu : Option Nat) (t : Nat) : Option (Option Nat) :=
  match mu with
  | none => some (some t)
  | some _ => none

/-- Modelled from the spec: `gpr_mu_unlock`, which is not among the sources: the lock is
released. -/
def gpr_mu_unlock (_mu : Option Nat) : Option Nat := none

/-- One step of thread `t`: a thread between calls that has a call to make enters
`grpc_timers_log_add` and calls `gpr_mu_lock`; a thread inside the call runs the next
statement of `body`, without looking at `mu`; a thread past the last statement calls
`gpr_mu_unlock` and leaves. -/
def step (m : machine) (t : Nat) : machine :=
  match m.threads[t]? with
  | none => m
  | some th =>
    match th.pos with
    | .idle =>
      match th.todo with
      | [] => m
      | k :: rest =>
        match gpr_mu_lock m.mu t with
        | none => m
        | some mu => { m with mu := mu, threads := m.threads.set t { todo := rest, pos := .locked k } }
    | .lined _ _ =>
      { m with mu := gpr_mu_unlock m.mu, threads := m.threads.set t { th with pos := .idle } }
    | p =>
      { m with log := (body p (m.log, m.w)).2.1, w := (body p (m.log, m.w)).2.2,
               threads := m.threads.set t { th with pos := (body p (m.log, m.w)).1 } }

/-- The steps of a schedule, in order. -/
def run_schedule (m : machine) (sched : List Nat) : machine :=
  sched.foldl step m

/-- Threads that are about to make the given calls on a log. -/
def start (l : grpc_timers_log) (w : world) (todos : List (List add_call)) : machine :=
  { log := l, w := w, mu := none, threads := todos.map fun td => { todo := td, pos := .idle } }

/-- Every thread has made all its calls. -/
def finished (m : machine) : Prop :=
  ∀ th ∈ m.threads, th.todo = [] ∧ th.pos = .idle

instance (m : machine) : Decidable (finished m) :=
  inferInstanceAs (Decidable (∀ th ∈ m.threads, th.todo = [] ∧ th.pos = .idle))

/-- The rest of the body run from stage `p`, at most `n` statements. -/
def finish_n : Nat → stage → grpc_timers_log × world → grpc_timers_log × world
  | 0, _, s => s
  | n + 1, p, s => finish_n n (body p s).1 (body p s).2

/-- The log and world once the call of a thread at `p` has run to its `gpr_mu_unlock`. -/
def finish (p : stage) (s : grpc_timers_log × world) : grpc_timers_log × world :=
  finish_n 7 p s

/-- The stage of the thread that holds the mutex. -/
def holder_stage (m : machine) : stage :=
  match m.mu with
  | none => .idle
  | some t =>
    match m.threads[t]? with
    | some th => th.pos
    | none => .idle

/-- The calls that the threads have not started yet. -/
def pending_of : List thread → List add_call
  | [] => []
  | th :: ths => th.todo ++ pending_of ths

/-- At most the holder of the mutex is inside a call. -/
def excl (m : machine) : Prop :=
  ∀ t th, m.threads[t]? = some th → (th.pos ≠ .idle ↔ m.mu = some t)

/-- The log and world once the call in progress, if any, has run to its end. -/
def settled (m : machine) : grpc_timers_log × world :=
  finish (holder_stage m) (m.log, m.w)

/-! ## Lemmas on the library model -/

lemma fprintf_calls (o : stream) (fmt : String) (a : List printf_arg) :
    (fprintf o fmt a).1.calls = o.calls ++ [(fmt, a)] := by
  unfold fprintf
  cases vformat fmt a with
  | none => rfl
  | some t =>
    rcases h : o.faults with _ | ⟨b, later⟩
    · simp [h]
    · cases b <;> simp [h]

lemma fprintf_healthy (o : stream) (fmt : String) (a : List printf_arg) (h : o.faults = []) :
    (fprintf o fmt a).1.faults = [] ∧
      (fprintf o fmt a).1.data = o.data ++ (vformat fmt a).toList := by
  unfold fprintf
  cases vformat fmt a with
  | none => simp [h]
  | some t => simp [h]

lemma write_all_nil (fmt : String) (o : stream) : write_all fmt o [] = o := rfl

lemma write_all_cons (fmt : String) (o : stream) (e : grpc_timer_entry)
    (es : List grpc_timer_entry) :
    write_all fmt o (e :: es) = write_all fmt (fprintf o fmt (entry_args e)).1 es := rfl

lemma write_all_calls (fmt : String) (es : List grpc_timer_entry) (o : stream) :
    (write_all fmt o es).calls = o.calls ++ es.map (request fmt) := by
  induction es generalizing o with
  | nil => simp [write_all_nil]
  | cons e es ih => simp [write_all_cons, ih, fprintf_calls, request]

lemma write_all_healthy (fmt : String) (es : List grpc_timer_entry) (o : stream)
    (h : o.faults = []) :
    (write_all fmt o es).faults = [] ∧
      (write_all fmt o es).data = o.data ++ es.filterMap (record_text fmt) := by
  induction es generalizing o with
  | nil => simp [write_all_nil, h]
  | cons e es ih =>
    obtain ⟨h1, h2⟩ := fprintf_healthy o fmt (entry_args e) h
    obtain ⟨h3, h4⟩ := ih _ h1
    refine ⟨by rw [write_all_cons]; exact h3, ?_⟩
    rw [write_all_cons, h4, h2, List.filterMap_cons]
    unfold record_text
    cases vformat fmt (entry_args e) <;> simp

/-! ## Lemmas on the operations -/

lemma report_eq (l : grpc_timers_log) (w : world) :
    log_report_locked l w =
      ({ l with num_entries := 0 },
       { out := write_all l.fmt w.out (buffered l), reports := w.reports + 1 }) := by
  simp [log_report_locked, write_all, buffered, List.foldl_map]

lemma wrap_int_id (x : Int) (h0 : -2147483648 ≤ x) (h1 : x ≤ 2147483647) : wrap_int x = x := by
  unfold wrap_int
  omega

lemma range_cells (mem : List grpc_timer_entry) (n : Nat) (h : n ≤ mem.length) :
    (List.range n).map (fun (i : Nat) => cell mem i) = mem.take n := by
  induction n with
  | zero => simp
  | succ n ih =>
    have hn : n < mem.length := by omega
    rw [List.range_succ, List.map_append, ih (by omega), List.take_succ]
    simp [cell, List.getD, List.getElem?_eq_getElem hn]

lemma buffered_eq_take (l : grpc_timers_log) (h : l.num_entries.toNat ≤ l.log.length) :
    buffered l = l.log.take l.num_entries.toNat :=
  range_cells l.log _ h

lemma add_entry (l : grpc_timers_log) (w : world) (k : add_call) :
    add_one (l, w) k =
      (let r := if l.num_entries = l.capacity_limit then log_report_locked l w else (l, w)
       ({ r.1 with num_entries := wrap_int (r.1.num_entries + 1)
                   log := poke r.1.log r.1.num_entries k.entry }, r.2)) := by
  simp [add_one, grpc_timers_log_add, timer_now, add_call.entry]

lemma add_below (c : Int) (hmax : c ≤ INT_MAX) (l : grpc_timers_log) (w : world) (k : add_call)
    (h : wf c l) (hlt : l.num_entries < c) :
    add_one (l, w) k =
      ({ l with num_entries := l.num_entries + 1
                log := l.log.set l.num_entries.toNat k.entry }, w) := by
  obtain ⟨h1, -, -, h4, -⟩ := h
  have hne : l.num_entries ≠ l.capacity_limit := by omega
  have hw : wrap_int (l.num_entries + 1) = l.num_entries + 1 := by
    apply wrap_int_id <;> simp only [INT_MAX] at hmax <;> omega
  rw [add_entry]
  simp [hne, hw, poke, h4]

lemma add_full (c : Int) (l : grpc_timers_log) (w : world) (k : add_call)
    (h : wf c l) (hfull : l.num_entries = c) :
    add_one (l, w) k =
      ({ l with num_entries := 1, log := l.log.set 0 k.entry }, (log_report_locked l w).2) := by
  obtain ⟨h1, -, -, -, -⟩ := h
  have he : l.num_entries = l.capacity_limit := by omega
  have hw : wrap_int 1 = 1 := by decide
  rw [add_entry]
  simp [he, report_eq, hw, poke]

lemma wf_create (c : Int) (hc : 0 < c) (dump : FILE) (fmt : String) :
    wf c (grpc_timers_log_create c dump fmt) := by
  simp [wf, grpc_timers_log_create]
  omega

lemma wf_add (c : Int) (hc : 0 < c) (hmax : c ≤ INT_MAX) (l : grpc_timers_log) (w : world)
    (k : add_call) (h : wf c l) : wf c (add_one (l, w) k).1 := by
  have h' := h
  obtain ⟨h1, h2, h3, h4, h5⟩ := h'
  by_cases hfull : l.num_entries = c
  · rw [add_full c l w k h hfull]
    simp [wf, h1, h2, h3]
    omega
  · rw [add_below c hmax l w k h (by omega)]
    simp [wf, h1, h2, h3]
    omega

lemma wf_add_all (c : Int) (hc : 0 < c) (hmax : c ≤ INT_MAX) (ks : List add_call)
    (l : grpc_timers_log) (w : world) (h : wf c l) : wf c (add_all (l, w) ks).1 := by
  induction ks generalizing l w with
  | nil => exact h
  | cons k ks ih =>
    have := ih (add_one (l, w) k).1 (add_one (l, w) k).2 (wf_add c hc hmax l w k h)
    simpa [add_all] using this

lemma write_all_append (fmt : String) (o : stream) (es fs : List grpc_timer_entry) :
    write_all fmt o (es ++ fs) = write_all fmt (write_all fmt o es) fs := by
  simp [write_all, List.foldl_append]

lemma destroy_out (l : grpc_timers_log) (w : world) :
    (grpc_timers_log_destroy l w).out = write_all l.fmt w.out (buffered l) := by
  simp [grpc_timers_log_destroy, report_eq]

lemma buffered_add_below (c : Int) (hmax : c ≤ INT_MAX) (l : grpc_timers_log) (w : world)
    (k : add_call) (h : wf c l) (hlt : l.num_entries < c) :
    buffered (add_one (l, w) k).1 = buffered l ++ [k.entry] := by
  have h' := h
  obtain ⟨h1, h2, h3, h4, h5⟩ := h'
  have hn : l.num_entries.toNat < l.log.length := by omega
  rw [add_below c hmax l w k h hlt, buffered_eq_take, buffered_eq_take l (by omega)]
  · have e : (l.num_entries + 1).toNat = l.num_entries.toNat + 1 := by omega
    simp only [e]
    rw [List.take_succ, List.set_take, List.set_eq_of_length_le (by simp)]
    simp [hn]
  · simp
    omega

lemma buffered_add_full (c : Int) (hc : 0 < c) (l : grpc_timers_log) (w : world)
    (k : add_call) (h : wf c l) (hfull : l.num_entries = c) :
    buffered (add_one (l, w) k).1 = [k.entry] := by
  have h' := h
  obtain ⟨h1, h2, h3, h4, h5⟩ := h'
  have hn : 0 < l.log.length := by omega
  rw [add_full c l w k h hfull, buffered_eq_take]
  · obtain ⟨x, xs, hx⟩ := List.exists_cons_of_length_pos hn
    simp [hx]
  · simp
    omega

lemma add_one_fmt (l : grpc_timers_log) (w : world) (k : add_call) :
    (add_one (l, w) k).1.fmt = l.fmt := by
  rw [add_entry]
  by_cases h : l.num_entries = l.capacity_limit <;> simp [h, report_eq]

lemma destroy_add_out (c : Int) (hc : 0 < c) (hmax : c ≤ INT_MAX) (l : grpc_timers_log)
    (w : world) (k : add_call) (h : wf c l) :
    (grpc_timers_log_destroy (add_one (l, w) k).1 (add_one (l, w) k).2).out =
      write_all l.fmt (grpc_timers_log_destroy l w).out [k.entry] := by
  rw [destroy_out, destroy_out, add_one_fmt]
  by_cases hfull : l.num_entries = c
  · rw [buffered_add_full c hc l w k h hfull, add_full c l w k h hfull]
    simp [report_eq]
  · have hlt : l.num_entries < c := by
      obtain ⟨-, -, -, -, h5⟩ := h
      omega
    rw [buffered_add_below c hmax l w k h hlt, add_below c hmax l w k h hlt, write_all_append]

lemma destroy_add_all_out (c : Int) (hc : 0 < c) (hmax : c ≤ INT_MAX) (ks : List add_call)
    (l : grpc_timers_log) (w : world) (h : wf c l) :
    (grpc_timers_log_destroy (add_all (l, w) ks).1 (add_all (l, w) ks).2).out =
      write_all l.fmt (grpc_timers_log_destroy l w).out (ks.map add_call.entry) := by
  induction ks generalizing l w with
  | nil => simp [add_all, write_all_nil]
  | cons k ks ih =>
    have h1 := ih (add_one (l, w) k).1 (add_one (l, w) k).2 (wf_add c hc hmax l w k h)
    rw [add_one_fmt, destroy_add_out c hc hmax l w k h] at h1
    simpa [add_all, write_all_cons, write_all_nil] using h1

lemma add_all_cons (s : grpc_timers_log × world) (k : add_call) (ks : List add_call) :
    add_all s (k :: ks) = add_all (add_one s k) ks := rfl

lemma add_all_snoc (s : grpc_timers_log × world) (ks : List add_call) (k : add_call) :
    add_all s (ks ++ [k]) = add_one (add_all s ks) k := by
  simp [add_all, List.foldl_append]

lemma add_all_below (c : Int) (hmax : c ≤ INT_MAX) (ks : List add_call)
    (l : grpc_timers_log) (w : world) (h : wf c l)
    (hroom : l.num_entries + (ks.length : Int) ≤ c) :
    (add_all (l, w) ks).2 = w ∧
      (add_all (l, w) ks).1.num_entries = l.num_entries + (ks.length : Int) ∧
      buffered (add_all (l, w) ks).1 = buffered l ++ ks.map add_call.entry ∧
      wf c (add_all (l, w) ks).1 := by
  induction ks generalizing l w with
  | nil => simp [add_all, h]
  | cons k ks ih =>
    have hlen : ((k :: ks).length : Int) = (ks.length : Int) + 1 := by simp
    have hlt : l.num_entries < c := by omega
    have hb := buffered_add_below c hmax l w k h hlt
    have he := add_below c hmax l w k h hlt
    have hwf : wf c (add_one (l, w) k).1 := by
      obtain ⟨h1, h2, h3, h4, h5⟩ := h
      rw [he]
      simp [wf, h1, h2, h3]
      omega
    have hn : (add_one (l, w) k).1.num_entries = l.num_entries + 1 := by rw [he]
    have hw : (add_one (l, w) k).2 = w := by rw [he]
    obtain ⟨i1, i2, i3, i4⟩ := ih (add_one (l, w) k).1 (add_one (l, w) k).2 hwf (by omega)
    rw [add_all_cons]
    refine ⟨by rw [i1, hw], by rw [i2, hn]; omega, ?_, i4⟩
    rw [i3, hb]
    simp

lemma buffered_create (c : Int) (dump : FILE) (fmt : String) :
    buffered (grpc_timers_log_create c dump fmt) = [] := by
  simp [buffered, grpc_timers_log_create]

lemma add_all_fmt (ks : List add_call) (l : grpc_timers_log) (w : world) :
    (add_all (l, w) ks).1.fmt = l.fmt := by
  induction ks generalizing l w with
  | nil => rfl
  | cons k ks ih => rw [add_all_cons, ih, add_one_fmt]

lemma destroy_reports (l : grpc_timers_log) (w : world) :
    (grpc_timers_log_destroy l w).reports = w.reports + 1 := by
  simp [grpc_timers_log_destroy, report_eq]

lemma filterMap_length_of_all_some {α β : Type} (f : α → Option β) (xs : List α)
    (h : ∀ x ∈ xs, (f x).isSome) : (xs.filterMap f).length = xs.length := by
  induction xs with
  | nil => rfl
  | cons x xs ih =>
    obtain ⟨t, ht⟩ := Option.isSome_iff_exists.mp (h x (List.mem_cons_self _ _))
    rw [List.filterMap_cons, ht]
    simp only [List.length_cons]
    rw [ih (fun y hy => h y (List.mem_cons_of_mem _ hy))]

lemma fprintf_data (o : stream) (fmt : String) (a : List printf_arg)
    (ts : List (Option String)) :
    (fprintf o fmt a).1.data ++ accepted (fprintf o fmt a).1.faults ts =
      o.data ++ accepted o.faults (vformat fmt a :: ts) := by
  unfold fprintf
  cases hv : vformat fmt a with
  | none =>
    cases hf : o.faults <;> simp [accepted]
  | some t =>
    rcases hf : o.faults with _ | ⟨b, later⟩
    · simp [hf, accepted]
    · cases b <;> simp [hf, accepted]

lemma write_all_data (fmt : String) (es : List grpc_timer_entry) (o : stream) :
    (write_all fmt o es).data = o.data ++ accepted o.faults (es.map (record_text fmt)) := by
  induction es generalizing o with
  | nil => simp [write_all_nil, accepted]
  | cons e es ih =>
    rw [write_all_cons, ih, fprintf_data]
    rfl

lemma buffered_length (l : grpc_timers_log) : (buffered l).length = l.num_entries.toNat := by
  simp [buffered]

lemma add_one_frame (l : grpc_timers_log) (w : world) (k : add_call) :
    (add_one (l, w) k).1.capacity_limit = l.capacity_limit ∧
      (add_one (l, w) k).1.capacity = l.capacity ∧
      (add_one (l, w) k).1.fp = l.fp ∧
      (add_one (l, w) k).1.fmt = l.fmt ∧
      (add_one (l, w) k).1.log.length = l.log.length := by
  rw [add_entry]
  by_cases h : l.num_entries = l.capacity_limit
  · simp only [h, if_true, report_eq, poke, true_and]
    split <;> simp
  · simp only [h, if_false, poke, true_and]
    split <;> simp

lemma default_fmt_chars :
    default_fmt.toList =
      ['T', 'I', 'M', 'E', 'R', ' ', '%', '1', '$', 'l', 'd', '.', '%', '2', '$', '0', '9', 'd',
       ' ', '%', '3', '$', 's', ' ', 's', 'e', 'q', ' ', '%', '4', '$', 'd', ' ', '@', ' ',
       '%', '5', '$', 's', ':', '%', '6', '$', 'd', '\n'] := by
  decide

lemma int_text (v : Int) :
    (toString v).data = (if v < 0 then ['-'] else []) ++ Nat.toDigits 10 v.natAbs := by
  cases v with
  | ofNat m =>
    have : ¬ (Int.ofNat m < 0) := by simp
    simp [this]
    rfl
  | negSucc m =>
    have : Int.negSucc m < 0 := Int.negSucc_lt_zero m
    simp [this]
    rfl

lemma nine_digits_length (n : Int) (h0 : 0 ≤ n) (h1 : n ≤ 999999999) :
    (nine_digits n).length = 9 := by
  obtain ⟨m, rfl⟩ := Int.eq_ofNat_of_zero_le h0
  have hm : m < 1000000000 := by omega
  have := Nat.repr_length m 9 (by decide) (by simpa using hm)
  have e : toString (m : Int) = Nat.repr m := rfl
  simp only [nine_digits, String.length_append, e]
  simp only [String.length] at this ⊢
  simp only [List.length_replicate]
  omega

lemma default_record_text (s n q l : Int) (t f : String) (h0 : 0 ≤ n) :
    record_text default_fmt ⟨⟨s, n⟩, t, q, f, l⟩ =
      some ("TIMER " ++ toString s ++ "." ++ nine_digits n ++ " " ++ t ++ " seq " ++
        toString q ++ " @ " ++ f ++ ":" ++ toString l ++ "\n") := by
  have hn : ¬ n < 0 := by omega
  simp only [record_text, vformat]
  rw [default_fmt_chars]
  simp [render, entry_args, pick, bump, convert, digits_value, pad_field, Char.isDigit, hn]
  have hl : (toString n).length = (Nat.toDigits 10 n.natAbs).length := by
    rw [String.length, int_text]
    simp [hn]
  apply String.ext
  simp only [String.data_append, nine_digits, hl, int_text, hn, if_false, List.nil_append]
  simp only [List.append_assoc, List.cons_append, List.nil_append]

lemma destroy_within_limit (c : Int) (hc : 0 < c) (hmax : c ≤ INT_MAX) (dump : FILE)
    (fmt : String) (w : world) (ks : List add_call) (hk : (ks.length : Int) ≤ c) :
    (add_all (grpc_timers_log_create c dump fmt, w) ks).2 = w ∧
    (grpc_timers_log_destroy (add_all (grpc_timers_log_create c dump fmt, w) ks).1
        (add_all (grpc_timers_log_create c dump fmt, w) ks).2).out =
      write_all fmt w.out (ks.map add_call.entry) := by
  have hwf := wf_create c hc dump fmt
  obtain ⟨i1, -, i3, -⟩ := add_all_below c hmax ks (grpc_timers_log_create c dump fmt) w hwf
    (by simp [grpc_timers_log_create]; omega)
  have hfmt := add_all_fmt ks (grpc_timers_log_create c dump fmt) w
  have hf : (grpc_timers_log_create c dump fmt).fmt = fmt := rfl
  refine ⟨i1, ?_⟩
  rw [destroy_out, i1, i3, buffered_create, hfmt, hf]
  simp

lemma write_all_requests (fmt : String) (o : stream) (ks : List add_call) :
    (write_all fmt o (ks.map add_call.entry)).calls =
      o.calls ++ ks.map (fun x => request fmt x.entry) := by
  rw [write_all_calls, List.map_map]
  rfl

lemma cell_poke_same (mem : List grpc_timer_entry) (i : Int) (e : grpc_timer_entry)
    (h0 : 0 ≤ i) (h1 : i.toNat < mem.length) : cell (poke mem i e) i = e := by
  simp [cell, poke, h0, List.getD, h1]

lemma cell_poke_other (mem : List grpc_timer_entry) (i j : Int) (e : grpc_timer_entry)
    (h : j ≠ i) : cell (poke mem i e) j = cell mem j := by
  unfold cell poke
  by_cases hj : 0 ≤ j
  · by_cases hi : 0 ≤ i
    · have hne : i.toNat ≠ j.toNat := by omega
      simp [hi, hj, List.getD, List.getElem?_set_ne hne]
    · simp [hi]
  · simp [hj]

lemma add_log_eq (l : grpc_timers_log) (w : world) (k : add_call) :
    (add_one (l, w) k).1.log = poke l.log (add_slot l w) k.entry := by
  rw [add_entry]
  unfold add_slot
  by_cases h : l.num_entries = l.capacity_limit <;> simp [h, report_eq]

lemma flushed_and_buffered (c : Int) (hc : 0 < c) (hmax : c ≤ INT_MAX) (ks : List add_call)
    (dump : FILE) (fmt : String) (w : world) :
    (add_all (grpc_timers_log_create c dump fmt, w) ks).2.out.calls ++
        (buffered (add_all (grpc_timers_log_create c dump fmt, w) ks).1).map (request fmt) =
      w.out.calls ++ ks.map (fun x => request fmt x.entry) := by
  have key := destroy_add_all_out c hc hmax ks (grpc_timers_log_create c dump fmt) w
    (wf_create c hc dump fmt)
  rw [destroy_out (grpc_timers_log_create c dump fmt), buffered_create, write_all_nil,
    destroy_out, add_all_fmt] at key
  have hf : (grpc_timers_log_create c dump fmt).fmt = fmt := rfl
  rw [hf] at key
  have := congrArg stream.calls key
  rw [write_all_calls, write_all_requests] at this
  exact this

lemma add_one_calls_extend (l : grpc_timers_log) (w : world) (k : add_call) :
    ∃ extra, (add_one (l, w) k).2.out.calls = w.out.calls ++ extra := by
  rw [add_entry]
  by_cases h : l.num_entries = l.capacity_limit
  · simp only [h, if_true, report_eq]
    exact ⟨_, write_all_calls _ _ _⟩
  · simp only [h, if_false]
    exact ⟨[], by simp⟩

lemma add_all_calls_extend (ks : List add_call) (l : grpc_timers_log) (w : world) :
    ∃ extra, (add_all (l, w) ks).2.out.calls = w.out.calls ++ extra := by
  induction ks generalizing l w with
  | nil => exact ⟨[], by simp [add_all]⟩
  | cons k ks ih =>
    obtain ⟨e1, h1⟩ := add_one_calls_extend l w k
    obtain ⟨e2, h2⟩ := ih (add_one (l, w) k).1 (add_one (l, w) k).2
    refine ⟨e1 ++ e2, ?_⟩
    rw [add_all_cons, h2, h1, List.append_assoc]

lemma flushed_prefix (c : Int) (hc : 0 < c) (hmax : c ≤ INT_MAX) (ks : List add_call)
    (dump : FILE) (fmt : String) (w : world) :
    (add_all (grpc_timers_log_create c dump fmt, w) ks).2.out.calls.drop w.out.calls.length ++
        (buffered (add_all (grpc_timers_log_create c dump fmt, w) ks).1).map (request fmt) =
      ks.map (fun x => request fmt x.entry) := by
  obtain ⟨extra, he⟩ := add_all_calls_extend ks (grpc_timers_log_create c dump fmt) w
  have hfb := flushed_and_buffered c hc hmax ks dump fmt w
  rw [he, List.append_assoc] at hfb
  rw [he, List.drop_left]
  exact List.append_cancel_left hfb

lemma count_and_reports (c : Int) (hc : 0 < c) (hmax : c ≤ INT_MAX) (dump : FILE)
    (fmt : String) (w : world) (ks : List add_call) (hne : ks ≠ []) :
    ∃ q r : Nat, (r : Int) < c ∧ (ks.length : Int) - 1 = c * q + r ∧
      (add_all (grpc_timers_log_create c dump fmt, w) ks).1.num_entries = r + 1 ∧
      (add_all (grpc_timers_log_create c dump fmt, w) ks).2.reports = w.reports + q := by
  induction ks using List.reverseRecOn with
  | nil => exact absurd rfl hne
  | append_singleton ks k ih =>
    have hwf := wf_add_all c hc hmax ks (grpc_timers_log_create c dump fmt) w
      (wf_create c hc dump fmt)
    rw [add_all_snoc]
    by_cases hks : ks = []
    · subst hks
      have h0 : add_all (grpc_timers_log_create c dump fmt, w) [] =
          (grpc_timers_log_create c dump fmt, w) := rfl
      have hb := add_below c hmax (grpc_timers_log_create c dump fmt) w k
        (wf_create c hc dump fmt) (by simpa [grpc_timers_log_create] using hc)
      rw [h0, hb]
      refine ⟨0, 0, by simpa using hc, by simp, ?_, ?_⟩
      · simp [grpc_timers_log_create]
      · simp
    · obtain ⟨q, r, hr, hlen, hn, hrep⟩ := ih hks
      have hl : ((ks ++ [k]).length : Int) = (ks.length : Int) + 1 := by simp
      by_cases hfull : (r : Int) + 1 = c
      · refine ⟨q + 1, 0, by simpa using hc, ?_, ?_, ?_⟩
        · rw [hl]
          push_cast
          have : c * (q : Int) + c = c * ((q : Int) + 1) := by ring
          omega
        · rw [add_full c _ _ k hwf (by omega)]
          simp
        · rw [add_full c _ _ k hwf (by omega)]
          simp only [report_eq]
          omega
      · refine ⟨q, r + 1, by push_cast; omega, ?_, ?_, ?_⟩
        · rw [hl]
          push_cast
          omega
        · rw [add_below c hmax _ _ k hwf (by omega)]
          simp only [hn]
          push_cast
          ring
        · rw [add_below c hmax _ _ k hwf (by omega)]
          exact hrep

/-! ## Lemmas on threads -/

lemma finish_body (p : stage) (s : grpc_timers_log × world) :
    finish (body p s).1 (body p s).2 = finish p s := by
  cases p <;> rfl

lemma finish_idle (s : grpc_timers_log × world) : finish .idle s = s := rfl

lemma finish_lined (k : add_call) (i : Int) (s : grpc_timers_log × world) :
    finish (.lined k i) s = s := rfl

lemma poke_poke (mem : List grpc_timer_entry) (i : Int) (e f : grpc_timer_entry) :
    poke (poke mem i e) i f = poke mem i f := by
  unfold poke
  by_cases h : 0 ≤ i <;> simp [h, List.set_set]

lemma cell_poke_inside (mem : List grpc_timer_entry) (i : Int) (e : grpc_timer_entry)
    (h : 0 ≤ i ∧ i.toNat < mem.length) : cell (poke mem i e) i = e :=
  cell_poke_same mem i e h.1 h.2

lemma poke_outside (mem : List grpc_timer_entry) (i : Int) (e : grpc_timer_entry)
    (h : ¬ (0 ≤ i ∧ i.toNat < mem.length)) : poke mem i e = mem := by
  unfold poke
  by_cases h0 : 0 ≤ i
  · have : mem.length ≤ i.toNat := by
      by_contra hc
      exact h ⟨h0, by omega⟩
    simp [h0, List.set_eq_of_length_le this]
  · simp [h0]

lemma stores_eq (k : add_call) (i : Int) (l : grpc_timers_log) (w : world) :
    finish_n 5 (.indexed k i) (l, w) = ({ l with log := poke l.log i k.entry }, w) := by
  simp only [finish_n, body, timer_now]
  by_cases h : 0 ≤ i ∧ i.toNat < l.log.length
  · simp only [poke_poke, cell_poke_inside _ _ _ h]
    rfl
  · simp only [poke_outside _ _ _ h]

lemma finish_locked (k : add_call) (s : grpc_timers_log × world) :
    finish (.locked k) s = add_one s k := by
  obtain ⟨l, w⟩ := s
  rw [add_entry]
  have e : finish (.locked k) (l, w) =
      finish_n 5 (.indexed k (body (.locked k) (l, w)).2.1.num_entries)
        ({ (body (.locked k) (l, w)).2.1 with
            num_entries := wrap_int ((body (.locked k) (l, w)).2.1.num_entries + 1) },
         (body (.locked k) (l, w)).2.2) := rfl
  rw [e, stores_eq]
  rfl

lemma pending_set_pos (ths : List thread) (t : Nat) (th : thread) (p : stage)
    (h : ths[t]? = some th) :
    pending_of (ths.set t { th with pos := p }) = pending_of ths := by
  induction ths generalizing t with
  | nil => simp at h
  | cons a as ih =>
    cases t with
    | zero =>
      simp at h
      subst h
      rfl
    | succ t =>
      simp at h
      simp [pending_of, ih t h]

lemma pending_set_pop (ths : List thread) (t : Nat) (th : thread) (k : add_call)
    (rest : List add_call) (p : stage) (h : ths[t]? = some th) (htd : th.todo = k :: rest) :
    (k :: pending_of (ths.set t { todo := rest, pos := p })).Perm (pending_of ths) := by
  induction ths generalizing t with
  | nil => simp at h
  | cons a as ih =>
    cases t with
    | zero =>
      simp at h
      subst h
      simp [pending_of, htd]
    | succ t =>
      simp at h
      have := ih t h
      simp only [List.set_cons_succ, pending_of]
      exact (List.perm_middle.symm.trans (List.Perm.append_left a.todo this))

lemma step_absent (m : machine) (t : Nat) (h : m.threads[t]? = none) : step m t = m := by
  unfold step
  rw [h]

lemma step_inner (m : machine) (t : Nat) (th : thread) (hth : m.threads[t]? = some th)
    (h1 : th.pos ≠ .idle) (h2 : ∀ k i, th.pos ≠ .lined k i) :
    step m t =
      { m with log := (body th.pos (m.log, m.w)).2.1, w := (body th.pos (m.log, m.w)).2.2,
               threads := m.threads.set t { th with pos := (body th.pos (m.log, m.w)).1 } } := by
  unfold step
  rw [hth]
  cases hp : th.pos <;> simp_all

lemma step_release (m : machine) (t : Nat) (th : thread) (hth : m.threads[t]? = some th)
    (k : add_call) (i : Int) (hp : th.pos = .lined k i) :
    step m t = { m with mu := none, threads := m.threads.set t { th with pos := .idle } } := by
  unfold step
  rw [hth]
  simp [hp, gpr_mu_unlock]

lemma step_acquire (m : machine) (t : Nat) (th : thread) (hth : m.threads[t]? = some th)
    (hp : th.pos = .idle) (k : add_call) (rest : List add_call) (htd : th.todo = k :: rest)
    (hmu : m.mu = none) :
    step m t =
      { m with mu := some t, threads := m.threads.set t { todo := rest, pos := .locked k } } := by
  unfold step
  rw [hth]
  simp [hp, htd, hmu, gpr_mu_lock]

lemma step_wait (m : machine) (t : Nat) (th : thread) (hth : m.threads[t]? = some th)
    (hp : th.pos = .idle) (h : th.todo = [] ∨ m.mu ≠ none) : step m t = m := by
  unfold step
  rw [hth]
  simp only [hp]
  rcases h with h | h
  · simp [h]
  · cases hm : m.mu with
    | none => exact absurd hm h
    | some u => cases th.todo <;> simp [gpr_mu_lock]

lemma body_not_idle (p : stage) (s : grpc_timers_log × world) (h : p ≠ .idle) :
    (body p s).1 ≠ .idle := by
  cases p <;> simp_all [body]

lemma holder_of_set (m : machine) (t : Nat) (th nw : thread) (hth : m.threads[t]? = some th) :
    (m.threads.set t nw)[t]? = some nw := by
  have hlt : t < m.threads.length := by
    by_contra hc
    have : m.threads[t]? = none := List.getElem?_eq_none (by omega)
    rw [this] at hth
    exact Option.noConfusion hth
  exact List.getElem?_set_self hlt

lemma step_sim (m : machine) (h : excl m) (t : Nat) :
    excl (step m t) ∧
    ((settled (step m t) = settled m ∧
        pending_of (step m t).threads = pending_of m.threads) ∨
      (∃ k, settled (step m t) = add_one (settled m) k ∧
        (k :: pending_of (step m t).threads).Perm (pending_of m.threads))) := by
  cases hth : m.threads[t]? with
  | none =>
    rw [step_absent m t hth]
    exact ⟨h, Or.inl ⟨rfl, rfl⟩⟩
  | some th =>
    have hset : ∀ nw : thread, (m.threads.set t nw)[t]? = some nw :=
      fun nw => holder_of_set m t th nw hth
    by_cases hidle : th.pos = .idle
    · -- the thread is between calls
      have hfree_or : m.mu ≠ some t := fun hm => ((h t th hth).mpr hm) hidle
      cases htd : th.todo with
      | nil =>
        rw [step_wait m t th hth hidle (Or.inl htd)]
        exact ⟨h, Or.inl ⟨rfl, rfl⟩⟩
      | cons k rest =>
        cases hmu : m.mu with
        | some u =>
          rw [step_wait m t th hth hidle (Or.inr (by rw [hmu]; simp))]
          exact ⟨h, Or.inl ⟨rfl, rfl⟩⟩
        | none =>
          rw [step_acquire m t th hth hidle k rest htd hmu]
          refine ⟨?_, Or.inr ⟨k, ?_, ?_⟩⟩
          · intro t' th' h'
            by_cases e : t' = t
            · subst e
              simp only [hset] at h'
              cases h'
              simp
            · simp only [List.getElem?_set_ne (Ne.symm e)] at h'
              have := h t' th' h'
              rw [hmu] at this
              have hid : th'.pos = .idle := by
                by_contra hc
                exact Option.noConfusion (this.mp hc)
              simp [hid, Ne.symm e]
          · simp only [settled, holder_stage, hset, hmu, finish_idle]
            exact finish_locked k (m.log, m.w)
          · exact pending_set_pop m.threads t th k rest _ hth htd
    · have hown : m.mu = some t := (h t th hth).mp hidle
      by_cases hl : ∃ k i, th.pos = .lined k i
      · -- the thread unlocks
        obtain ⟨k, i, hp⟩ := hl
        rw [step_release m t th hth k i hp]
        refine ⟨?_, Or.inl ⟨?_, ?_⟩⟩
        · intro t' th' h'
          by_cases e : t' = t
          · subst e
            simp only [hset] at h'
            cases h'
            simp
          · simp only [List.getElem?_set_ne (Ne.symm e)] at h'
            have := h t' th' h'
            rw [hown] at this
            have hid : th'.pos = .idle := by
              by_contra hc
              have := this.mp hc
              simp at this
              exact e this.symm
            simp [hid]
        · simp only [settled, holder_stage, hown, hth, hp, finish_idle, finish_lined]
        · exact pending_set_pos m.threads t th _ hth
      · -- the thread runs one statement of the body
        have h2 : ∀ k i, th.pos ≠ .lined k i := fun k i hp => hl ⟨k, i, hp⟩
        rw [step_inner m t th hth hidle h2]
        refine ⟨?_, Or.inl ⟨?_, ?_⟩⟩
        · intro t' th' h'
          by_cases e : t' = t
          · subst e
            simp only [hset] at h'
            cases h'
            simp [hown, body_not_idle _ _ hidle]
          · simp only [List.getElem?_set_ne (Ne.symm e)] at h'
            exact h t' th' h'
        · simp only [settled, holder_stage, hown, hth, hset]
          exact finish_body th.pos (m.log, m.w)
        · exact pending_set_pos m.threads t th _ hth

lemma run_sim (sched : List Nat) (m : machine) (h : excl m) :
    excl (run_schedule m sched) ∧
    ∃ done, settled (run_schedule m sched) = add_all (settled m) done ∧
      (done ++ pending_of (run_schedule m sched).threads).Perm (pending_of m.threads) := by
  induction sched generalizing m with
  | nil => exact ⟨h, [], rfl, List.Perm.refl _⟩
  | cons t sched ih =>
    obtain ⟨hex, hstep⟩ := step_sim m h t
    obtain ⟨hex', done, hs, hp⟩ := ih (step m t) hex
    refine ⟨hex', ?_⟩
    rcases hstep with ⟨e1, e2⟩ | ⟨k, e1, e2⟩
    · exact ⟨done, by rw [← e1]; exact hs, by rw [← e2]; exact hp⟩
    · refine ⟨k :: done, ?_, ?_⟩
      · show settled (run_schedule (step m t) sched) = add_all (add_one (settled m) k) done
        rw [← e1]
        exact hs
      · have : (k :: (done ++ pending_of (run_schedule (step m t) sched).threads)).Perm
            (k :: pending_of (step m t).threads) := List.Perm.cons k hp
        exact this.trans e2

lemma run_schedule_append (m : machine) (s1 s2 : List Nat) :
    run_schedule m (s1 ++ s2) = run_schedule (run_schedule m s1) s2 := by
  simp [run_schedule, List.foldl_append]

lemma one_call (log : grpc_timers_log) (w : world) (ths : List thread) (t : Nat)
    (k : add_call) (rest : List add_call)
    (hth : ths[t]? = some { todo := k :: rest, pos := .idle }) :
    run_schedule { log := log, w := w, mu := none, threads := ths } (List.replicate 9 t) =
      { log := (add_one (log, w) k).1, w := (add_one (log, w) k).2, mu := none,
        threads := ths.set t { todo := rest, pos := .idle } } := by
  have hlt : t < ths.length := by
    by_contra hc
    have : ths[t]? = none := List.getElem?_eq_none (by omega)
    rw [this] at hth
    exact Option.noConfusion hth
  have hf := finish_locked k (log, w)
  rw [← hf]
  simp [run_schedule, List.replicate, step, hth, List.getElem?_set_self hlt, List.set_set,
    finish, finish_n, body, gpr_mu_lock, gpr_mu_unlock]

lemma set_same {α : Type} (xs : List α) (t : Nat) (a : α) (h : xs[t]? = some a) :
    xs.set t a = xs := by
  induction xs generalizing t with
  | nil => rfl
  | cons x xs ih =>
    cases t with
    | zero =>
      simp at h
      simp [h]
    | succ t =>
      simp at h
      simp [ih t h]

lemma set_middle {α : Type} (xs ys : List α) (a b : α) :
    (xs ++ a :: ys).set xs.length b = xs ++ b :: ys := by
  induction xs with
  | nil => rfl
  | cons x xs ih => simp [ih]

lemma get_middle {α : Type} (xs ys : List α) (a : α) :
    (xs ++ a :: ys)[xs.length]? = some a := by
  induction xs with
  | nil => simp
  | cons x xs ih => simpa using ih

lemma thread_calls (td : List add_call) (log : grpc_timers_log) (w : world)
    (ths : List thread) (t : Nat) (hth : ths[t]? = some { todo := td, pos := .idle }) :
    ∃ sched, run_schedule { log := log, w := w, mu := none, threads := ths } sched =
      { log := (add_all (log, w) td).1, w := (add_all (log, w) td).2, mu := none,
        threads := ths.set t { todo := [], pos := .idle } } := by
  induction td generalizing log w ths with
  | nil => exact ⟨[], by rw [set_same ths t _ hth]; rfl⟩
  | cons k rest ih =>
    have hlt : t < ths.length := by
      by_contra hc
      have : ths[t]? = none := List.getElem?_eq_none (by omega)
      rw [this] at hth
      exact Option.noConfusion hth
    obtain ⟨s2, h2⟩ := ih (add_one (log, w) k).1 (add_one (log, w) k).2
      (ths.set t { todo := rest, pos := .idle }) (List.getElem?_set_self hlt)
    refine ⟨List.replicate 9 t ++ s2, ?_⟩
    rw [run_schedule_append, one_call log w ths t k rest hth, h2, List.set_set]
    rfl

lemma all_threads (rest : List (List add_call)) (done : List thread)
    (log : grpc_timers_log) (w : world)
    (hdone : ∀ th ∈ done, th.todo = [] ∧ th.pos = .idle) :
    ∃ sched, finished (run_schedule
      { log := log, w := w, mu := none,
        threads := done ++ rest.map fun td => { todo := td, pos := .idle } } sched) := by
  induction rest generalizing done log w with
  | nil =>
    refine ⟨[], ?_⟩
    intro th hth
    simp [run_schedule] at hth
    exact hdone th hth
  | cons td rest ih =>
    obtain ⟨s1, h1⟩ := thread_calls td log w
      (done ++ ({ todo := td, pos := .idle } : thread) ::
        rest.map fun td => { todo := td, pos := .idle })
      done.length (get_middle _ _ _)
    obtain ⟨s2, h2⟩ := ih (done ++ [{ todo := [], pos := .idle }])
      (add_all (log, w) td).1 (add_all (log, w) td).2 (by
        intro th hth
        rcases List.mem_append.mp hth with hm | hm
        · exact hdone th hm
        · simp at hm
          subst hm
          exact ⟨rfl, rfl⟩)
    refine ⟨s1 ++ s2, ?_⟩
    rw [run_schedule_append]
    simp only [List.map_cons]
    rw [h1, set_middle]
    simpa using h2

lemma some_schedule_finishes (l : grpc_timers_log) (w : world) (todos : List (List add_call)) :
    ∃ sched, finished (run_schedule (start l w todos) sched) := by
  have := all_threads todos [] l w (by simp)
  simpa [start] using this

lemma excl_start (l : grpc_timers_log) (w : world) (todos : List (List add_call)) :
    excl (start l w todos) := by
  intro t th h
  simp only [start, List.getElem?_map, Option.map_eq_some'] at h
  obtain ⟨td, -, rfl⟩ := h
  simp [start]

lemma pending_start (l : grpc_timers_log) (w : world) (todos : List (List add_call)) :
    pending_of (start l w todos).threads = todos.flatten := by
  simp only [start]
  induction todos with
  | nil => rfl
  | cons td tds ih => simp [pending_of, ih]

lemma finished_settled (m : machine) (h : finished m) :
    settled m = (m.log, m.w) ∧ pending_of m.threads = [] := by
  constructor
  · unfold settled holder_stage
    cases hmu : m.mu with
    | none => rfl
    | some t =>
      cases hth : m.threads[t]? with
      | none => simp [hth, finish_idle]
      | some th =>
        have hmem : th ∈ m.threads := by
          obtain ⟨hlt, he⟩ := List.getElem?_eq_some_iff.mp hth
          rw [← he]
          exact List.getElem_mem hlt
        have := (h th hmem).2
        simp [hth, this, finish_idle]
  · have : ∀ ths : List thread, (∀ th ∈ ths, th.todo = [] ∧ th.pos = .idle) →
        pending_of ths = [] := by
      intro ths
      induction ths with
      | nil => intro _; rfl
      | cons a as ih =>
        intro hh
        simp [pending_of, (hh a (List.mem_cons_self _ _)).1,
          ih (fun th hth => hh th (List.mem_cons_of_mem _ hth))]
    exact this m.threads h

lemma finished_run (l : grpc_timers_log) (w : world) (todos : List (List add_call))
    (sched : List Nat) (h : finished (run_schedule (start l w todos) sched)) :
    ∃ done, done.Perm todos.flatten ∧
      ((run_schedule (start l w todos) sched).log, (run_schedule (start l w todos) sched).w) =
        add_all (l, w) done := by
  obtain ⟨-, done, hs, hp⟩ := run_sim sched (start l w todos) (excl_start l w todos)
  obtain ⟨f1, f2⟩ := finished_settled _ h
  rw [f1] at hs
  rw [f2, List.append_nil, pending_start] at hp
  exact ⟨done, hp, hs⟩

lemma flatten_length (todos : List (List add_call)) (K : Nat)
    (hK : ∀ td ∈ todos, td.length = K) : todos.flatten.length = todos.length * K := by
  induction todos with
  | nil => simp
  | cons td tds ih =>
    have h1 := hK td (List.mem_cons_self _ _)
    have h2 := ih (fun x hx => hK x (List.mem_cons_of_mem _ hx))
    simp only [List.flatten_cons, List.length_append, List.length_cons, h1, h2]
    ring

/-! ## The claims -/

/-- C1: on a log created with a limit `c > 0`, any finite sequence of calls of
`grpc_timers_log_add` followed by `grpc_timers_log_destroy` makes exactly one `fprintf`
request per call, in call order, each with the timestamp, tag, sequence number, file and
line of its call; on a stream that fails no write the accepted text is the records of the
calls, in call order. -/
theorem adds_then_destroy_report_each_call_once (c : Int) (hc : 0 < c) (hmax : c ≤ INT_MAX)
    (dump : FILE) (fmt : String) (w : world) (ks : List add_call) :
    (grpc_timers_log_destroy (add_all (grpc_timers_log_create c dump fmt, w) ks).1
        (add_all (grpc_timers_log_create c dump fmt, w) ks).2).out.calls =
      w.out.calls ++ ks.map (fun k =>
        (fmt, [printf_arg.int k.now.tv_sec, printf_arg.int k.now.tv_nsec, printf_arg.str k.tag,
               printf_arg.int k.seq, printf_arg.str k.file, printf_arg.int k.line])) ∧
    (w.out.faults = [] →
      (grpc_timers_log_destroy (add_all (grpc_timers_log_create c dump fmt, w) ks).1
          (add_all (grpc_timers_log_create c dump fmt, w) ks).2).out.data =
        w.out.data ++ ks.filterMap (fun k => record_text fmt k.entry)) := by
  have key := destroy_add_all_out c hc hmax ks (grpc_timers_log_create c dump fmt) w
    (wf_create c hc dump fmt)
  rw [destroy_out (grpc_timers_log_create c dump fmt), buffered_create, write_all_nil] at key
  have hf : (grpc_timers_log_create c dump fmt).fmt = fmt := rfl
  rw [hf] at key
  constructor
  · rw [key, write_all_calls, List.map_map]
    rfl
  · intro hh
    rw [key, (write_all_healthy fmt _ w.out hh).2, List.filterMap_map]
    rfl

/-- Witness of C1: limit 2, three calls, so one report inside the third call and one at
destroy. -/
theorem adds_then_destroy_report_each_call_once_witness :
    (0 : Int) < 2 ∧ (2 : Int) ≤ INT_MAX ∧
    (grpc_timers_log_destroy
        (add_all (grpc_timers_log_create 2 ⟨1⟩ default_fmt, fresh_world [])
          three_calls).1
        (add_all (grpc_timers_log_create 2 ⟨1⟩ default_fmt, fresh_world [])
          three_calls).2).out.calls =
      [(default_fmt, [.int 5, .int 1, .str "a", .int 0, .str "x.c", .int 10]),
       (default_fmt, [.int 5, .int 2, .str "b", .int 1, .str "x.c", .int 11]),
       (default_fmt, [.int 5, .int 3, .str "c", .int 2, .str "y.c", .int 12])] :=
  ⟨by decide, by decide,
    (adds_then_destroy_report_each_call_once 2 (by decide) (by decide) ⟨1⟩ default_fmt
      (fresh_world []) three_calls).1⟩

/-- C2: on a log created with a limit `c > 0`, after create and after every call of
`grpc_timers_log_add` of any sequence of calls, `0 <= num_entries <= capacity_limit`
(and `capacity_limit` is still `c`). -/
theorem count_within_capacity (c : Int) (hc : 0 < c) (hmax : c ≤ INT_MAX)
    (dump : FILE) (fmt : String) (w : world) (ks : List add_call) (j : Nat) :
    0 ≤ (add_all (grpc_timers_log_create c dump fmt, w) (ks.take j)).1.num_entries ∧
    (add_all (grpc_timers_log_create c dump fmt, w) (ks.take j)).1.num_entries ≤
      (add_all (grpc_timers_log_create c dump fmt, w) (ks.take j)).1.capacity_limit ∧
    (add_all (grpc_timers_log_create c dump fmt, w) (ks.take j)).1.capacity_limit = c := by
  obtain ⟨h1, -, -, h4, h5⟩ :=
    wf_add_all c hc hmax (ks.take j) (grpc_timers_log_create c dump fmt) w (wf_create c hc dump fmt)
  exact ⟨h4, by omega, h1⟩

/-- Witness of C2: limit 2 and three calls, observed after the third. -/
theorem count_within_capacity_witness :
    (0 : Int) < 2 ∧ (2 : Int) ≤ INT_MAX ∧
    (add_all (grpc_timers_log_create 2 ⟨1⟩ default_fmt, fresh_world [])
      (three_calls.take 3)).1.num_entries ≤
      (add_all (grpc_timers_log_create 2 ⟨1⟩ default_fmt, fresh_world [])
      (three_calls.take 3)).1.capacity_limit :=
  ⟨by decide, by decide,
    (count_within_capacity 2 (by decide) (by decide) ⟨1⟩ default_fmt (fresh_world [])
      three_calls 3).2.1⟩

/-- C3: with a limit `c > 0`, `c + 1` calls on a fresh log run `log_report_locked` exactly
once: the first `c` calls leave the world as it was and fill the buffer, the call after
them runs the one report, which requests exactly the first `c` entries in order, and it
leaves `num_entries = 1` with its own entry as the one buffered entry. -/
theorem flush_on_full (c : Int) (hc : 0 < c) (hmax : c ≤ INT_MAX) (dump : FILE) (fmt : String)
    (w : world) (ks : List add_call) (k : add_call) (hlen : (ks.length : Int) = c) :
    (add_all (grpc_timers_log_create c dump fmt, w) ks).2 = w ∧
    (add_all (grpc_timers_log_create c dump fmt, w) ks).1.num_entries = c ∧
    (add_all (grpc_timers_log_create c dump fmt, w) (ks ++ [k])).2.reports = w.reports + 1 ∧
    (add_all (grpc_timers_log_create c dump fmt, w) (ks ++ [k])).2.out.calls =
      w.out.calls ++ ks.map (fun x => request fmt x.entry) ∧
    (add_all (grpc_timers_log_create c dump fmt, w) (ks ++ [k])).1.num_entries = 1 ∧
    buffered (add_all (grpc_timers_log_create c dump fmt, w) (ks ++ [k])).1 = [k.entry] := by
  have hwf := wf_create c hc dump fmt
  obtain ⟨i1, i2, i3, i4⟩ := add_all_below c hmax ks (grpc_timers_log_create c dump fmt) w hwf
    (by simp [grpc_timers_log_create]; omega)
  have hn : (add_all (grpc_timers_log_create c dump fmt, w) ks).1.num_entries = c := by
    rw [i2]
    simp [grpc_timers_log_create, hlen]
  have hstep := add_full c (add_all (grpc_timers_log_create c dump fmt, w) ks).1
    (add_all (grpc_timers_log_create c dump fmt, w) ks).2 k i4 hn
  have hb := buffered_add_full c hc (add_all (grpc_timers_log_create c dump fmt, w) ks).1
    (add_all (grpc_timers_log_create c dump fmt, w) ks).2 k i4 hn
  have hfmt := add_all_fmt ks (grpc_timers_log_create c dump fmt) w
  rw [add_all_snoc]
  refine ⟨i1, hn, ?_, ?_, ?_, hb⟩
  · rw [hstep, i1]
    simp [report_eq]
  · rw [hstep, i1]
    simp only [report_eq]
    rw [write_all_calls, i3, buffered_create, hfmt]
    simp [grpc_timers_log_create]
  · rw [hstep]

/-- Witness of C3: limit 2, two calls and then a third. -/
theorem flush_on_full_witness :
    (0 : Int) < 2 ∧ (2 : Int) ≤ INT_MAX ∧ (((three_calls.take 2).length : Nat) : Int) = 2 ∧
    (add_all (grpc_timers_log_create 2 ⟨1⟩ default_fmt, fresh_world [])
      (three_calls.take 2 ++ [⟨⟨5, 3⟩, "c", 2, "y.c", 12⟩])).2.reports = 0 + 1 :=
  ⟨by decide, by decide, by decide,
    (flush_on_full 2 (by decide) (by decide) ⟨1⟩ default_fmt (fresh_world [])
      (three_calls.take 2) ⟨⟨5, 3⟩, "c", 2, "y.c", 12⟩ (by decide)).2.2.1⟩

/-- C4: with a limit `c > 0`, `k <= c` calls on a fresh log leave the world as it was (no
report, nothing requested of the stream), and `grpc_timers_log_destroy` then runs one
report that makes exactly `k` requests, those of the `k` calls in order; on a stream that
fails no write and with a format that renders, exactly `k` records are accepted. -/
theorem destroy_flushes_remainder (c : Int) (hc : 0 < c) (hmax : c ≤ INT_MAX) (dump : FILE)
    (fmt : String) (w : world) (ks : List add_call) (hk : (ks.length : Int) ≤ c) :
    (add_all (grpc_timers_log_create c dump fmt, w) ks).2 = w ∧
    (grpc_timers_log_destroy (add_all (grpc_timers_log_create c dump fmt, w) ks).1
        (add_all (grpc_timers_log_create c dump fmt, w) ks).2).reports = w.reports + 1 ∧
    (grpc_timers_log_destroy (add_all (grpc_timers_log_create c dump fmt, w) ks).1
        (add_all (grpc_timers_log_create c dump fmt, w) ks).2).out.calls =
      w.out.calls ++ ks.map (fun x => request fmt x.entry) ∧
    (grpc_timers_log_destroy (add_all (grpc_timers_log_create c dump fmt, w) ks).1
        (add_all (grpc_timers_log_create c dump fmt, w) ks).2).out.calls.length =
      w.out.calls.length + ks.length ∧
    (w.out.faults = [] →
      (grpc_timers_log_destroy (add_all (grpc_timers_log_create c dump fmt, w) ks).1
          (add_all (grpc_timers_log_create c dump fmt, w) ks).2).out.data =
        w.out.data ++ ks.filterMap (fun x => record_text fmt x.entry)) ∧
    (w.out.faults = [] → (∀ x ∈ ks, (record_text fmt x.entry).isSome) →
      (grpc_timers_log_destroy (add_all (grpc_timers_log_create c dump fmt, w) ks).1
          (add_all (grpc_timers_log_create c dump fmt, w) ks).2).out.data.length =
        w.out.data.length + ks.length) := by
  obtain ⟨i1, hout⟩ := destroy_within_limit c hc hmax dump fmt w ks hk
  have hdata : w.out.faults = [] →
      (write_all fmt w.out (ks.map add_call.entry)).data =
        w.out.data ++ ks.filterMap (fun x => record_text fmt x.entry) := by
    intro hh
    rw [(write_all_healthy fmt _ w.out hh).2, List.filterMap_map]
    rfl
  refine ⟨i1, by rw [destroy_reports, i1], ?_, ?_, ?_, ?_⟩
  · rw [hout, write_all_requests]
  · rw [hout, write_all_requests]
    simp
  · intro hh
    rw [hout, hdata hh]
  · intro hh hall
    rw [hout, hdata hh, List.length_append]
    congr 1
    exact filterMap_length_of_all_some _ ks hall

/-- Witness of C4: limit 10 and three calls give exactly three records at destroy. -/
theorem destroy_flushes_remainder_witness :
    (0 : Int) < 10 ∧ (10 : Int) ≤ INT_MAX ∧ ((three_calls.length : Nat) : Int) ≤ 10 ∧
    (grpc_timers_log_destroy
        (add_all (grpc_timers_log_create 10 ⟨1⟩ default_fmt, fresh_world []) three_calls).1
        (add_all (grpc_timers_log_create 10 ⟨1⟩ default_fmt, fresh_world []) three_calls).2
      ).out.calls.length = 0 + 3 :=
  ⟨by decide, by decide, by decide,
    (destroy_flushes_remainder 10 (by decide) (by decide) ⟨1⟩ default_fmt (fresh_world [])
      three_calls (by decide)).2.2.2.1⟩

/-- C5: with `N <= c` calls on a fresh log whose sequence numbers are `0, 1, ..., N-1` in
call order, the report at destroy requests exactly those `N` records, and their sequence
numbers read `0, 1, ..., N-1` in output order. -/
theorem order_preserved (c : Int) (hc : 0 < c) (hmax : c ≤ INT_MAX) (dump : FILE)
    (fmt : String) (w : world) (ks : List add_call) (hN : (ks.length : Int) ≤ c)
    (hseq : ks.map add_call.seq = (List.range ks.length).map (fun (i : Nat) => (i : Int))) :
    (grpc_timers_log_destroy (add_all (grpc_timers_log_create c dump fmt, w) ks).1
        (add_all (grpc_timers_log_create c dump fmt, w) ks).2).out.calls =
      w.out.calls ++ ks.map (fun x => request fmt x.entry) ∧
    ((grpc_timers_log_destroy (add_all (grpc_timers_log_create c dump fmt, w) ks).1
        (add_all (grpc_timers_log_create c dump fmt, w) ks).2).out.calls.drop
          w.out.calls.length).map request_seq =
      (List.range ks.length).map (fun (i : Nat) => some (i : Int)) := by
  have h : (grpc_timers_log_destroy (add_all (grpc_timers_log_create c dump fmt, w) ks).1
      (add_all (grpc_timers_log_create c dump fmt, w) ks).2).out.calls =
      w.out.calls ++ ks.map (fun x => request fmt x.entry) := by
    rw [(destroy_within_limit c hc hmax dump fmt w ks hN).2, write_all_requests]
  refine ⟨h, ?_⟩
  rw [h, List.drop_left, List.map_map]
  have e : (request_seq ∘ fun x => request fmt x.entry) = (some ∘ add_call.seq) := by
    funext x
    rfl
  rw [e, ← List.map_map, hseq, List.map_map]
  rfl

/-- Witness of C5: limit 10 and the three sample calls numbered 0, 1, 2. -/
theorem order_preserved_witness :
    (0 : Int) < 10 ∧ (10 : Int) ≤ INT_MAX ∧ ((three_calls.length : Nat) : Int) ≤ 10 ∧
    three_calls.map add_call.seq = [0, 1, 2] ∧
    ((grpc_timers_log_destroy
        (add_all (grpc_timers_log_create 10 ⟨1⟩ default_fmt, fresh_world []) three_calls).1
        (add_all (grpc_timers_log_create 10 ⟨1⟩ default_fmt, fresh_world []) three_calls).2
      ).out.calls.drop 0).map request_seq = [some 0, some 1, some 2] :=
  ⟨by decide, by decide, by decide, by decide,
    (order_preserved 10 (by decide) (by decide) ⟨1⟩ default_fmt (fresh_world [])
      three_calls (by decide) (by decide)).2⟩

/-- C6: on a log created with a limit `c > 0` and used through any sequence of calls, a
further call of `grpc_timers_log_add` makes requests of the stream if and only if
`num_entries == capacity_limit` when it is called; below the limit it leaves the world
as it was, and at the limit it runs one report, which makes exactly `c` requests, those of
the buffered entries. -/
theorem add_reports_iff_full (c : Int) (hc : 0 < c) (hmax : c ≤ INT_MAX) (dump : FILE)
    (fmt : String) (w : world) (ks : List add_call) (k : add_call) :
    ((add_one (add_all (grpc_timers_log_create c dump fmt, w) ks) k).2.out.calls ≠
        (add_all (grpc_timers_log_create c dump fmt, w) ks).2.out.calls ↔
      (add_all (grpc_timers_log_create c dump fmt, w) ks).1.num_entries =
        (add_all (grpc_timers_log_create c dump fmt, w) ks).1.capacity_limit) ∧
    ((add_all (grpc_timers_log_create c dump fmt, w) ks).1.num_entries <
        (add_all (grpc_timers_log_create c dump fmt, w) ks).1.capacity_limit →
      (add_one (add_all (grpc_timers_log_create c dump fmt, w) ks) k).2 =
        (add_all (grpc_timers_log_create c dump fmt, w) ks).2) ∧
    ((add_all (grpc_timers_log_create c dump fmt, w) ks).1.num_entries =
        (add_all (grpc_timers_log_create c dump fmt, w) ks).1.capacity_limit →
      (add_one (add_all (grpc_timers_log_create c dump fmt, w) ks) k).2.out.calls =
        (add_all (grpc_timers_log_create c dump fmt, w) ks).2.out.calls ++
          (buffered (add_all (grpc_timers_log_create c dump fmt, w) ks).1).map (request fmt) ∧
      ((buffered (add_all (grpc_timers_log_create c dump fmt, w) ks).1).length : Int) = c ∧
      (add_one (add_all (grpc_timers_log_create c dump fmt, w) ks) k).2.reports =
        (add_all (grpc_timers_log_create c dump fmt, w) ks).2.reports + 1) := by
  have hwf := wf_add_all c hc hmax ks (grpc_timers_log_create c dump fmt) w
    (wf_create c hc dump fmt)
  have hfmt : (add_all (grpc_timers_log_create c dump fmt, w) ks).1.fmt = fmt :=
    add_all_fmt ks (grpc_timers_log_create c dump fmt) w
  generalize add_all (grpc_timers_log_create c dump fmt, w) ks = s at hwf hfmt ⊢
  obtain ⟨l, v⟩ := s
  have hwf' := hwf
  obtain ⟨h1, h2, h3, h4, h5⟩ := hwf'
  simp only at h1 h2 h3 h4 h5 hfmt ⊢
  have hfull : l.num_entries = l.capacity_limit →
      (add_one (l, v) k).2.out.calls = v.out.calls ++ (buffered l).map (request fmt) ∧
      ((buffered l).length : Int) = c ∧ (add_one (l, v) k).2.reports = v.reports + 1 := by
    intro he
    rw [add_full c l v k hwf (by omega)]
    simp only [report_eq]
    rw [write_all_calls, hfmt, buffered_length]
    simp only [true_and, and_true]
    omega
  have hbelow : l.num_entries < l.capacity_limit → (add_one (l, v) k).2 = v := by
    intro hlt
    rw [add_below c hmax l v k hwf (by omega)]
  refine ⟨⟨?_, ?_⟩, hbelow, hfull⟩
  · intro hne
    by_contra hn
    exact hne (by rw [hbelow (by omega)])
  · intro he hcalls
    obtain ⟨g1, g2, -⟩ := hfull he
    rw [g1] at hcalls
    have := congrArg List.length hcalls
    simp only [List.length_append, List.length_map] at this
    omega

/-- Witness of C6: limit 2; the third call finds the buffer full and runs one report. -/
theorem add_reports_iff_full_witness :
    (0 : Int) < 2 ∧ (2 : Int) ≤ INT_MAX ∧
    (add_all (grpc_timers_log_create 2 ⟨1⟩ default_fmt, fresh_world [])
        (three_calls.take 2)).1.num_entries =
      (add_all (grpc_timers_log_create 2 ⟨1⟩ default_fmt, fresh_world [])
        (three_calls.take 2)).1.capacity_limit ∧
    (add_one (add_all (grpc_timers_log_create 2 ⟨1⟩ default_fmt, fresh_world [])
        (three_calls.take 2)) ⟨⟨5, 3⟩, "c", 2, "y.c", 12⟩).2.reports =
      (add_all (grpc_timers_log_create 2 ⟨1⟩ default_fmt, fresh_world [])
        (three_calls.take 2)).2.reports + 1 :=
  ⟨by decide, by decide, by decide,
    ((add_reports_iff_full 2 (by decide) (by decide) ⟨1⟩ default_fmt (fresh_world [])
      (three_calls.take 2) ⟨⟨5, 3⟩, "c", 2, "y.c", 12⟩).2.2 (by decide)).2.2⟩

/-- C7: `log_report_locked` on a log with `num_entries >= 0` makes exactly `num_entries`
requests of the stream, the `i`-th being the record of `log[i]` under the log's format for
`i = 0 .. num_entries - 1` in that order (on a stream that fails no write, the accepted
text is those records), and it leaves `num_entries = 0` and the rest of the log as it was. -/
theorem report_writes_buffer_and_resets (l : grpc_timers_log) (w : world)
    (h0 : 0 ≤ l.num_entries) :
    (log_report_locked l w).2.out.calls =
      w.out.calls ++ (List.range l.num_entries.toNat).map
        (fun (i : Nat) => (l.fmt, entry_args (cell l.log i))) ∧
    ((log_report_locked l w).2.out.calls.length : Int) =
      (w.out.calls.length : Int) + l.num_entries ∧
    (w.out.faults = [] →
      (log_report_locked l w).2.out.data =
        w.out.data ++ (List.range l.num_entries.toNat).filterMap
          (fun (i : Nat) => vformat l.fmt (entry_args (cell l.log i)))) ∧
    (log_report_locked l w).1.num_entries = 0 ∧
    (log_report_locked l w).1 = { l with num_entries := 0 } := by
  rw [report_eq]
  simp only [write_all_calls, and_true]
  refine ⟨?_, ?_, ?_⟩
  · simp [buffered, request]
  · simp only [List.length_append, List.length_map, buffered_length]
    push_cast
    omega
  · intro hh
    rw [(write_all_healthy l.fmt _ w.out hh).2]
    simp only [buffered, List.filterMap_map]
    rfl

/-- Witness of C7: a log of limit 2 holding two entries. -/
theorem report_writes_buffer_and_resets_witness :
    (0 : Int) ≤ (add_all (grpc_timers_log_create 2 ⟨1⟩ default_fmt, fresh_world [])
        (three_calls.take 2)).1.num_entries ∧
    (log_report_locked
      (add_all (grpc_timers_log_create 2 ⟨1⟩ default_fmt, fresh_world [])
        (three_calls.take 2)).1 (fresh_world [])).2.out.data =
      ["TIMER 5.000000001 a seq 0 @ x.c:10\n", "TIMER 5.000000002 b seq 1 @ x.c:11\n"] ∧
    (log_report_locked
      (add_all (grpc_timers_log_create 2 ⟨1⟩ default_fmt, fresh_world [])
        (three_calls.take 2)).1 (fresh_world [])).1.num_entries = 0 :=
  ⟨by decide,
    (report_writes_buffer_and_resets
      (add_all (grpc_timers_log_create 2 ⟨1⟩ default_fmt, fresh_world [])
        (three_calls.take 2)).1 (fresh_world []) (by decide)).2.2.1 rfl,
    (report_writes_buffer_and_resets
      (add_all (grpc_timers_log_create 2 ⟨1⟩ default_fmt, fresh_world [])
        (three_calls.take 2)).1 (fresh_world []) (by decide)).2.2.2.1⟩

/-- C8: the log that `grpc_timers_log_global_init` installs carries the default template,
and under it the record of an entry with seconds `s`, nanoseconds `n` in `0 .. 999999999`,
tag `t`, sequence `q`, file `f` and line `l` is `TIMER s.n t seq q @ f:l` and a newline,
with `s`, `q`, `l` in decimal and `n` in decimal filled with zeros to exactly 9 digits. -/
theorem default_template_record (before : Option grpc_timers_log) (s n q l : Int)
    (t f : String) (h0 : 0 ≤ n) (h1 : n ≤ 999999999) :
    ∃ lg, grpc_timers_log_global_init before = some lg ∧
      record_text lg.fmt ⟨⟨s, n⟩, t, q, f, l⟩ =
        some ("TIMER " ++ toString s ++ "." ++ nine_digits n ++ " " ++ t ++ " seq " ++
          toString q ++ " @ " ++ f ++ ":" ++ toString l ++ "\n") ∧
      (nine_digits n).length = 9 :=
  ⟨_, rfl, default_record_text s n q l t f h0, nine_digits_length n h0 h1⟩

/-- Witness of C8: 12 seconds and 345 nanoseconds. -/
theorem default_template_record_witness :
    (0 : Int) ≤ 345 ∧ (345 : Int) ≤ 999999999 ∧
    ∃ lg, grpc_timers_log_global_init none = some lg ∧
      record_text lg.fmt ⟨⟨12, 345⟩, "tg", -7, "a.c", 99⟩ =
        some ("TIMER " ++ toString (12 : Int) ++ "." ++ nine_digits 345 ++ " " ++ "tg" ++
          " seq " ++ toString (-7 : Int) ++ " @ " ++ "a.c" ++ ":" ++ toString (99 : Int) ++
          "\n") ∧
      (nine_digits 345).length = 9 :=
  ⟨by decide, by decide,
    default_template_record none 12 345 (-7) 99 "tg" "a.c" (by decide) (by decide)⟩

/-- C9: whatever the fault script of the stream and whether or not the format renders,
`log_report_locked` makes one request per buffered entry (a failed write does not stop the
later ones: the stream accepts every record whose own write does not fail), leaves
`num_entries = 0`, and the log that it and `grpc_timers_log_add` return does not depend on
what happened to the writes. -/
theorem report_survives_write_failures (l : grpc_timers_log) (w : world) :
    (log_report_locked l w).2.out.calls =
      w.out.calls ++ (buffered l).map (request l.fmt) ∧
    (log_report_locked l w).2.out.data =
      w.out.data ++ accepted w.out.faults ((buffered l).map (record_text l.fmt)) ∧
    (log_report_locked l w).1.num_entries = 0 ∧
    (∀ w2 : world, (log_report_locked l w2).1 = (log_report_locked l w).1) ∧
    (∀ (w2 : world) (now : gpr_timespec) (tag : String) (seq : Int) (file : String)
        (line : Int),
      (grpc_timers_log_add l w2 now tag seq file line).1 =
        (grpc_timers_log_add l w now tag seq file line).1) := by
  refine ⟨?_, ?_, ?_, ?_, ?_⟩
  · rw [report_eq, write_all_calls]
  · rw [report_eq, write_all_data]
  · rw [report_eq]
  · intro w2
    rw [report_eq, report_eq]
  · intro w2 now tag seq file line
    have e := add_entry l w ⟨now, tag, seq, file, line⟩
    have e2 := add_entry l w2 ⟨now, tag, seq, file, line⟩
    simp only [add_one] at e e2
    rw [e, e2]
    by_cases h : l.num_entries = l.capacity_limit <;> simp [h, report_eq]

/-- C10: neither `log_report_locked` nor `grpc_timers_log_add`, nor any sequence of calls of
the latter, changes `capacity_limit`, `capacity`, the stream pointer `fp`, the format `fmt`
or the number of cells of the entry array. -/
theorem capacity_and_binding_fixed (l : grpc_timers_log) (w : world) (now : gpr_timespec)
    (tag : String) (seq : Int) (file : String) (line : Int) (ks : List add_call) :
    ((log_report_locked l w).1.capacity_limit = l.capacity_limit ∧
      (log_report_locked l w).1.capacity = l.capacity ∧
      (log_report_locked l w).1.fp = l.fp ∧
      (log_report_locked l w).1.fmt = l.fmt ∧
      (log_report_locked l w).1.log.length = l.log.length) ∧
    ((grpc_timers_log_add l w now tag seq file line).1.capacity_limit = l.capacity_limit ∧
      (grpc_timers_log_add l w now tag seq file line).1.capacity = l.capacity ∧
      (grpc_timers_log_add l w now tag seq file line).1.fp = l.fp ∧
      (grpc_timers_log_add l w now tag seq file line).1.fmt = l.fmt ∧
      (grpc_timers_log_add l w now tag seq file line).1.log.length = l.log.length) ∧
    ((add_all (l, w) ks).1.capacity_limit = l.capacity_limit ∧
      (add_all (l, w) ks).1.capacity = l.capacity ∧
      (add_all (l, w) ks).1.fp = l.fp ∧
      (add_all (l, w) ks).1.fmt = l.fmt ∧
      (add_all (l, w) ks).1.log.length = l.log.length) := by
  refine ⟨?_, ?_, ?_⟩
  · rw [report_eq]
    exact ⟨rfl, rfl, rfl, rfl, rfl⟩
  · exact add_one_frame l w ⟨now, tag, seq, file, line⟩
  · induction ks generalizing l w with
    | nil => exact ⟨rfl, rfl, rfl, rfl, rfl⟩
    | cons k ks ih =>
      obtain ⟨a1, a2, a3, a4, a5⟩ := add_one_frame l w k
      obtain ⟨b1, b2, b3, b4, b5⟩ := ih (add_one (l, w) k).1 (add_one (l, w) k).2
      rw [add_all_cons]
      exact ⟨b1.trans a1, b2.trans a2, b3.trans a3, b4.trans a4, b5.trans a5⟩

/-- C11: `grpc_timers_log_create` returns a log with `num_entries = 0`,
`capacity = capacity_limit =` the given limit, an entry array of that many cells, and the
given stream pointer and format; it has no access to the stream, and the fresh log holds
nothing to report: destroying it at once makes no request and leaves the stream as it
was. -/
theorem create_result (capacity_limit : Int) (dump : FILE) (fmt : String) (w : world) :
    (grpc_timers_log_create capacity_limit dump fmt).num_entries = 0 ∧
    (grpc_timers_log_create capacity_limit dump fmt).capacity = capacity_limit ∧
    (grpc_timers_log_create capacity_limit dump fmt).capacity_limit = capacity_limit ∧
    (grpc_timers_log_create capacity_limit dump fmt).log.length = capacity_limit.toNat ∧
    (grpc_timers_log_create capacity_limit dump fmt).fp = dump ∧
    (grpc_timers_log_create capacity_limit dump fmt).fmt = fmt ∧
    buffered (grpc_timers_log_create capacity_limit dump fmt) = [] ∧
    (grpc_timers_log_destroy (grpc_timers_log_create capacity_limit dump fmt) w).out =
      w.out := by
  refine ⟨rfl, rfl, rfl, ?_, rfl, rfl, buffered_create _ _ _, ?_⟩
  · simp [grpc_timers_log_create]
  · rw [destroy_out, buffered_create, write_all_nil]

/-- C12: `grpc_timers_log_global_init` stores in the global pointer exactly the log that
`grpc_timers_log_create` returns for 100000 entries, `stdout` and the default template
(so `capacity_limit = 100000 > 0` and `num_entries = 0`); `grpc_timers_log_global_destroy`
is `grpc_timers_log_destroy` on the object behind the global pointer, so it reports what
that log still buffers: after any calls of `grpc_timers_log_add` on the published log it
leaves one request per call on the stream, in call order. -/
theorem global_init_publishes_created_log (before : Option grpc_timers_log) (w : world)
    (ks : List add_call) :
    grpc_timers_log_global_init before =
      some (grpc_timers_log_create 100000 stdout default_fmt) ∧
    (∃ lg, grpc_timers_log_global_init before = some lg ∧ lg.capacity_limit = 100000 ∧
      0 < lg.capacity_limit ∧ lg.capacity = 100000 ∧ lg.log.length = 100000 ∧
      lg.num_entries = 0 ∧ lg.fp = stdout ∧ lg.fmt = default_fmt) ∧
    (∀ lg : grpc_timers_log,
      grpc_timers_log_global_destroy (some lg) w = some (grpc_timers_log_destroy lg w) ∧
      (grpc_timers_log_destroy lg w).out = write_all lg.fmt w.out (buffered lg) ∧
      (grpc_timers_log_destroy lg w).out.calls =
        w.out.calls ++ (buffered lg).map (request lg.fmt)) ∧
    (grpc_timers_log_global_destroy
        (some (add_all (grpc_timers_log_create 100000 stdout default_fmt, w) ks).1)
        (add_all (grpc_timers_log_create 100000 stdout default_fmt, w) ks).2).map
          (fun v => v.out.calls) =
      some (w.out.calls ++ ks.map (fun k => request default_fmt k.entry)) := by
  refine ⟨rfl, ⟨_, rfl, rfl, by decide, rfl, ?_, rfl, rfl, rfl⟩, ?_, ?_⟩
  · show (List.replicate (100000 : Int).toNat (default : grpc_timer_entry)).length = 100000
    rw [List.length_replicate]
    rfl
  · intro lg
    refine ⟨rfl, destroy_out lg w, ?_⟩
    rw [destroy_out, write_all_calls]
  · have key := destroy_add_all_out 100000 (by decide) (by decide) ks
      (grpc_timers_log_create 100000 stdout default_fmt) w
      (wf_create 100000 (by decide) stdout default_fmt)
    rw [destroy_out (grpc_timers_log_create 100000 stdout default_fmt), buffered_create,
      write_all_nil] at key
    simp only [grpc_timers_log_global_destroy, Option.map_some']
    rw [key]
    have hf : (grpc_timers_log_create 100000 stdout default_fmt).fmt = default_fmt := rfl
    rw [hf, write_all_requests]

/-- C13: in the inactive build any sequence of calls of `grpc_timers_log_global_init`, of
the append operation and of `grpc_timers_log_global_destroy`, in any order and number,
returns and leaves the program state as it was: the stream receives nothing, the global
pointer stays what it was (a null pointer stays null: no log is allocated), and calling
init or destroy twice is the same as calling it once. -/
theorem inactive_calls_change_nothing (p : program) (cs : List inactive.call) :
    inactive.run_all p cs = p ∧
    (inactive.run_all p cs).w.out = p.w.out ∧
    (inactive.run_all p cs).global = p.global ∧
    inactive.grpc_timers_log_global_init p = p ∧
    inactive.grpc_timers_log_global_destroy p = p ∧
    inactive.grpc_timers_log_global_init (inactive.grpc_timers_log_global_init p) =
      inactive.grpc_timers_log_global_init p ∧
    inactive.grpc_timers_log_global_destroy (inactive.grpc_timers_log_global_destroy p) =
      inactive.grpc_timers_log_global_destroy p := by
  have h : inactive.run_all p cs = p := by
    induction cs with
    | nil => rfl
    | cons c cs ih =>
      cases c <;> exact ih
  refine ⟨h, by rw [h], by rw [h], rfl, rfl, rfl, rfl⟩

/-- C15: on a log in a valid state (limit `c`, `0 <= num_entries <= c`, an array of `c`
cells), a call of `grpc_timers_log_add` made when `num_entries < capacity_limit` stores the
clock value read during the call and the given tag, sequence number, file and line in
slot `num_entries`, adds exactly 1 to `num_entries`, leaves every other slot and the world
as they were, and so keeps every buffered entry; a call made when the buffer is full
removes the buffered entries only by running the report, which requests them all. -/
theorem add_stores_entry (c : Int) (hmax : c ≤ INT_MAX) (l : grpc_timers_log) (w : world)
    (now : gpr_timespec) (tag : String) (seq : Int) (file : String) (line : Int)
    (h : wf c l) :
    (l.num_entries < l.capacity_limit →
      cell (grpc_timers_log_add l w now tag seq file line).1.log l.num_entries =
        { timer := now, tag := tag, seq := seq, file := file, line := line } ∧
      (grpc_timers_log_add l w now tag seq file line).1.num_entries = l.num_entries + 1 ∧
      (∀ i : Int, i ≠ l.num_entries →
        cell (grpc_timers_log_add l w now tag seq file line).1.log i = cell l.log i) ∧
      buffered (grpc_timers_log_add l w now tag seq file line).1 =
        buffered l ++ [{ timer := now, tag := tag, seq := seq, file := file, line := line }] ∧
      (grpc_timers_log_add l w now tag seq file line).2 = w) ∧
    (l.num_entries = l.capacity_limit →
      (grpc_timers_log_add l w now tag seq file line).2.reports = w.reports + 1 ∧
      (grpc_timers_log_add l w now tag seq file line).2.out.calls =
        w.out.calls ++ (buffered l).map (request l.fmt)) := by
  have h' := h
  obtain ⟨h1, h2, h3, h4, h5⟩ := h'
  constructor
  · intro hlt
    have hlt' : l.num_entries < c := by omega
    have e := add_below c hmax l w ⟨now, tag, seq, file, line⟩ h hlt'
    have b := buffered_add_below c hmax l w ⟨now, tag, seq, file, line⟩ h hlt'
    simp only [add_one] at e b
    refine ⟨?_, by rw [e], ?_, b, by rw [e]⟩
    · rw [e]
      have := cell_poke_same l.log l.num_entries
        { timer := now, tag := tag, seq := seq, file := file, line := line } h4 (by omega)
      simpa [poke, h4, add_call.entry] using this
    · intro i hi
      rw [e]
      have := cell_poke_other l.log l.num_entries i
        { timer := now, tag := tag, seq := seq, file := file, line := line } hi
      simpa [poke, h4, add_call.entry] using this
  · intro hfull
    have e := add_full c l w ⟨now, tag, seq, file, line⟩ h (by omega)
    simp only [add_one] at e
    rw [e]
    simp only [report_eq, true_and]
    exact write_all_calls _ _ _

/-- Witness of C15: a log of limit 2 holding one entry. -/
theorem add_stores_entry_witness :
    (2 : Int) ≤ INT_MAX ∧
    wf 2 (add_all (grpc_timers_log_create 2 ⟨1⟩ default_fmt, fresh_world [])
      (three_calls.take 1)).1 ∧
    (grpc_timers_log_add
      (add_all (grpc_timers_log_create 2 ⟨1⟩ default_fmt, fresh_world [])
        (three_calls.take 1)).1 (fresh_world []) ⟨7, 8⟩ "t" 4 "z.c" 9).1.num_entries =
      (add_all (grpc_timers_log_create 2 ⟨1⟩ default_fmt, fresh_world [])
        (three_calls.take 1)).1.num_entries + 1 :=
  ⟨by decide, by decide,
    ((add_stores_entry 2 (by decide)
      (add_all (grpc_timers_log_create 2 ⟨1⟩ default_fmt, fresh_world [])
        (three_calls.take 1)).1 (fresh_world []) ⟨7, 8⟩ "t" 4 "z.c" 9 (by decide)).1
      (by decide)).2.1⟩

/-- C16: on a log created with a limit `c > 0` and used through any sequence of calls, the
entry array has `c` cells, the slot that the next `grpc_timers_log_add` writes (the write
of the call is a write to that slot) has an index in `[0, c)`, so inside the array, and
`log_report_locked`, run on that state (inside a call or by destroy), reads exactly the
slots `0 .. num_entries - 1` with `num_entries <= c`: it makes one request per slot read,
`num_entries` of them, and they are the requests of the first `num_entries` cells of the
array, every one a cell inside the array. -/
theorem accesses_in_bounds (c : Int) (hc : 0 < c) (hmax : c ≤ INT_MAX) (dump : FILE)
    (fmt : String) (w : world) (ks : List add_call) (k : add_call) :
    (add_all (grpc_timers_log_create c dump fmt, w) ks).1.log.length = c.toNat ∧
    0 ≤ add_slot (add_all (grpc_timers_log_create c dump fmt, w) ks).1
        (add_all (grpc_timers_log_create c dump fmt, w) ks).2 ∧
    add_slot (add_all (grpc_timers_log_create c dump fmt, w) ks).1
        (add_all (grpc_timers_log_create c dump fmt, w) ks).2 < c ∧
    (add_slot (add_all (grpc_timers_log_create c dump fmt, w) ks).1
        (add_all (grpc_timers_log_create c dump fmt, w) ks).2).toNat <
      (add_all (grpc_timers_log_create c dump fmt, w) ks).1.log.length ∧
    (add_one (add_all (grpc_timers_log_create c dump fmt, w) ks) k).1.log =
      poke (add_all (grpc_timers_log_create c dump fmt, w) ks).1.log
        (add_slot (add_all (grpc_timers_log_create c dump fmt, w) ks).1
          (add_all (grpc_timers_log_create c dump fmt, w) ks).2) k.entry ∧
    (add_all (grpc_timers_log_create c dump fmt, w) ks).1.num_entries ≤ c ∧
    (∀ i ∈ List.range (add_all (grpc_timers_log_create c dump fmt, w) ks).1.num_entries.toNat,
      i < (add_all (grpc_timers_log_create c dump fmt, w) ks).1.log.length) ∧
    (add_all (grpc_timers_log_create c dump fmt, w) ks).1.num_entries.toNat ≤
      (add_all (grpc_timers_log_create c dump fmt, w) ks).1.log.length ∧
    (log_report_locked (add_all (grpc_timers_log_create c dump fmt, w) ks).1
        (add_all (grpc_timers_log_create c dump fmt, w) ks).2).2.out.calls =
      (add_all (grpc_timers_log_create c dump fmt, w) ks).2.out.calls ++
        ((add_all (grpc_timers_log_create c dump fmt, w) ks).1.log.take
          (add_all (grpc_timers_log_create c dump fmt, w) ks).1.num_entries.toNat).map
            (request fmt) ∧
    (log_report_locked (add_all (grpc_timers_log_create c dump fmt, w) ks).1
        (add_all (grpc_timers_log_create c dump fmt, w) ks).2).2.out.calls.length =
      (add_all (grpc_timers_log_create c dump fmt, w) ks).2.out.calls.length +
        (add_all (grpc_timers_log_create c dump fmt, w) ks).1.num_entries.toNat ∧
    (∀ i, i < (add_all (grpc_timers_log_create c dump fmt, w) ks).1.num_entries.toNat →
      ∃ hb : i < (add_all (grpc_timers_log_create c dump fmt, w) ks).1.log.length,
        (log_report_locked (add_all (grpc_timers_log_create c dump fmt, w) ks).1
          (add_all (grpc_timers_log_create c dump fmt, w) ks).2).2.out.calls[
            (add_all (grpc_timers_log_create c dump fmt, w) ks).2.out.calls.length + i]? =
          some (request fmt
            ((add_all (grpc_timers_log_create c dump fmt, w) ks).1.log.get ⟨i, hb⟩))) ∧
    (grpc_timers_log_destroy (add_all (grpc_timers_log_create c dump fmt, w) ks).1
        (add_all (grpc_timers_log_create c dump fmt, w) ks).2).out.calls =
      (add_all (grpc_timers_log_create c dump fmt, w) ks).2.out.calls ++
        ((add_all (grpc_timers_log_create c dump fmt, w) ks).1.log.take
          (add_all (grpc_timers_log_create c dump fmt, w) ks).1.num_entries.toNat).map
            (request fmt) := by
  have hwf := wf_add_all c hc hmax ks (grpc_timers_log_create c dump fmt) w
    (wf_create c hc dump fmt)
  have hfmt : (add_all (grpc_timers_log_create c dump fmt, w) ks).1.fmt = fmt :=
    add_all_fmt ks (grpc_timers_log_create c dump fmt) w
  generalize add_all (grpc_timers_log_create c dump fmt, w) ks = s at hwf hfmt ⊢
  obtain ⟨l, v⟩ := s
  obtain ⟨h1, h2, h3, h4, h5⟩ := hwf
  simp only at h1 h2 h3 h4 h5 hfmt ⊢
  have hslot : 0 ≤ add_slot l v ∧ add_slot l v < c := by
    unfold add_slot
    by_cases hf : l.num_entries = l.capacity_limit
    · simp only [hf, if_true, report_eq]
      omega
    · simp only [hf, if_false]
      omega
  have hle : l.num_entries.toNat ≤ l.log.length := by omega
  have hrep : (log_report_locked l v).2.out.calls =
      v.out.calls ++ (l.log.take l.num_entries.toNat).map (request fmt) := by
    rw [report_eq]
    simp only
    rw [write_all_calls, buffered_eq_take l hle, hfmt]
  refine ⟨h3, hslot.1, hslot.2, by omega, add_log_eq l v k, h5, ?_, hle, hrep, ?_, ?_, ?_⟩
  · intro i hi
    have := List.mem_range.mp hi
    omega
  · rw [hrep, List.length_append, List.length_map, List.length_take, Nat.min_eq_left hle]
  · intro i hi
    have hb : i < l.log.length := by omega
    refine ⟨hb, ?_⟩
    rw [hrep, List.getElem?_append_right (by omega)]
    simp [hi, hb, List.getElem?_take]
  · rw [destroy_out, write_all_calls, buffered_eq_take l hle, hfmt]

/-- Witness of C16: limit 2, after two calls (the buffer is full, the next slot is 0, and
a report reads the two cells of the array). -/
theorem accesses_in_bounds_witness :
    (0 : Int) < 2 ∧ (2 : Int) ≤ INT_MAX ∧
    add_slot (add_all (grpc_timers_log_create 2 ⟨1⟩ default_fmt, fresh_world [])
        (three_calls.take 2)).1
        (add_all (grpc_timers_log_create 2 ⟨1⟩ default_fmt, fresh_world [])
        (three_calls.take 2)).2 < 2 ∧
    (log_report_locked
        (add_all (grpc_timers_log_create 2 ⟨1⟩ default_fmt, fresh_world [])
          (three_calls.take 2)).1
        (add_all (grpc_timers_log_create 2 ⟨1⟩ default_fmt, fresh_world [])
          (three_calls.take 2)).2).2.out.calls =
      [(default_fmt, [.int 5, .int 1, .str "a", .int 0, .str "x.c", .int 10]),
       (default_fmt, [.int 5, .int 2, .str "b", .int 1, .str "x.c", .int 11])] :=
  ⟨by decide, by decide,
    (accesses_in_bounds 2 (by decide) (by decide) ⟨1⟩ default_fmt (fresh_world [])
      (three_calls.take 2) default).2.2.1,
    (accesses_in_bounds 2 (by decide) (by decide) ⟨1⟩ default_fmt (fresh_world [])
      (three_calls.take 2) default).2.2.2.2.2.2.2.2.1⟩

/-- C19: on a log created with a limit `c > 0`, if each clock value read by a call of
`grpc_timers_log_add` is not earlier than the one read by the call before it, then the
timestamps of the records requested of the stream are in non-decreasing order, at destroy
and at every moment before it, whatever the number of reports they were written in. -/
theorem timestamps_non_decreasing (c : Int) (hc : 0 < c) (hmax : c ≤ INT_MAX) (dump : FILE)
    (fmt : String) (w : world) (ks : List add_call)
    (hclock : List.Chain' ts_le (ks.map add_call.now)) :
    ((grpc_timers_log_destroy (add_all (grpc_timers_log_create c dump fmt, w) ks).1
        (add_all (grpc_timers_log_create c dump fmt, w) ks).2).out.calls.drop
          w.out.calls.length).map request_stamp = ks.map (fun x => some x.now) ∧
    List.Chain' (fun a b => ∃ x y, a = some x ∧ b = some y ∧ ts_le x y)
      (((grpc_timers_log_destroy (add_all (grpc_timers_log_create c dump fmt, w) ks).1
        (add_all (grpc_timers_log_create c dump fmt, w) ks).2).out.calls.drop
          w.out.calls.length).map request_stamp) ∧
    List.Chain' (fun a b => ∃ x y, a = some x ∧ b = some y ∧ ts_le x y)
      (((add_all (grpc_timers_log_create c dump fmt, w) ks).2.out.calls.drop
          w.out.calls.length).map request_stamp) := by
  have hall : List.Chain' (fun a b => ∃ x y, a = some x ∧ b = some y ∧ ts_le x y)
      (ks.map (fun x => some x.now)) := by
    have e : ks.map (fun x => some x.now) = (ks.map add_call.now).map some := by
      rw [List.map_map]
      rfl
    rw [e, List.chain'_map]
    exact hclock.imp (fun {a b} hab => ⟨a, b, rfl, rfl, hab⟩)
  have key := destroy_add_all_out c hc hmax ks (grpc_timers_log_create c dump fmt) w
    (wf_create c hc dump fmt)
  rw [destroy_out (grpc_timers_log_create c dump fmt), buffered_create, write_all_nil] at key
  have hf : (grpc_timers_log_create c dump fmt).fmt = fmt := rfl
  rw [hf] at key
  have hst : ∀ xs : List add_call,
      (xs.map (fun x => request fmt x.entry)).map request_stamp =
        xs.map (fun x => some x.now) := by
    intro xs
    rw [List.map_map]
    rfl
  have hd : ((grpc_timers_log_destroy (add_all (grpc_timers_log_create c dump fmt, w) ks).1
      (add_all (grpc_timers_log_create c dump fmt, w) ks).2).out.calls.drop
        w.out.calls.length).map request_stamp = ks.map (fun x => some x.now) := by
    rw [key, write_all_requests, List.drop_left, hst]
  refine ⟨hd, by rw [hd]; exact hall, ?_⟩
  have hpre : ((add_all (grpc_timers_log_create c dump fmt, w) ks).2.out.calls.drop
      w.out.calls.length) <+: ks.map (fun x => request fmt x.entry) :=
    ⟨_, flushed_prefix c hc hmax ks dump fmt w⟩
  have := hall
  rw [← hst] at this
  obtain ⟨tl, htl⟩ := hpre
  rw [← htl, List.map_append] at this
  exact this.left_of_append

/-- Witness of C19: the three sample calls read the clock at 5.000000001, 5.000000002 and
5.000000003. -/
theorem timestamps_non_decreasing_witness :
    (0 : Int) < 2 ∧ (2 : Int) ≤ INT_MAX ∧ List.Chain' ts_le (three_calls.map add_call.now) ∧
    ((grpc_timers_log_destroy
        (add_all (grpc_timers_log_create 2 ⟨1⟩ default_fmt, fresh_world []) three_calls).1
        (add_all (grpc_timers_log_create 2 ⟨1⟩ default_fmt, fresh_world []) three_calls).2
      ).out.calls.drop 0).map request_stamp = [some ⟨5, 1⟩, some ⟨5, 2⟩, some ⟨5, 3⟩] :=
  ⟨by decide, by decide, by simp [three_calls, ts_le],
    (timestamps_non_decreasing 2 (by decide) (by decide) ⟨1⟩ default_fmt (fresh_world [])
      three_calls (by simp [three_calls, ts_le])).1⟩

/-- C18: with a limit `c > 0`, after `n >= 1` calls on a fresh log `num_entries` is
`((n - 1) mod c) + 1`, exactly `(n - 1) div c` reports have run, and the stream has been
asked for exactly `c * ((n - 1) div c)` records, those of the first that many calls. -/
theorem count_after_n_adds (c : Int) (hc : 0 < c) (hmax : c ≤ INT_MAX) (dump : FILE)
    (fmt : String) (w : world) (ks : List add_call) (hn : 1 ≤ ks.length) :
    (add_all (grpc_timers_log_create c dump fmt, w) ks).1.num_entries =
      ((ks.length : Int) - 1) % c + 1 ∧
    ((add_all (grpc_timers_log_create c dump fmt, w) ks).2.reports : Int) =
      (w.reports : Int) + ((ks.length : Int) - 1) / c ∧
    (add_all (grpc_timers_log_create c dump fmt, w) ks).2.out.calls =
      w.out.calls ++
        (ks.take (c * (((ks.length : Int) - 1) / c)).toNat).map (fun x => request fmt x.entry) ∧
    ((add_all (grpc_timers_log_create c dump fmt, w) ks).2.out.calls.length : Int) =
      (w.out.calls.length : Int) + c * (((ks.length : Int) - 1) / c) := by
  have hne : ks ≠ [] := by
    intro h
    rw [h] at hn
    simp at hn
  obtain ⟨q, r, hr, hlen, hcount, hrep⟩ := count_and_reports c hc hmax dump fmt w ks hne
  have hdm : ((ks.length : Int) - 1) / c = q ∧ ((ks.length : Int) - 1) % c = r := by
    rw [Int.ediv_emod_unique hc]
    exact ⟨by omega, by omega, hr⟩
  obtain ⟨hd, hm⟩ := hdm
  obtain ⟨extra, he⟩ := add_all_calls_extend ks (grpc_timers_log_create c dump fmt) w
  have hfb := flushed_prefix c hc hmax ks dump fmt w
  rw [he, List.drop_left] at hfb
  have hbl : ((buffered (add_all (grpc_timers_log_create c dump fmt, w) ks).1).map
      (request fmt)).length = r + 1 := by
    rw [List.length_map, buffered_length, hcount]
    omega
  have hel : extra.length = (c * (q : Int)).toNat := by
    have := congrArg List.length hfb
    rw [List.length_append, hbl, List.length_map] at this
    omega
  have hex : extra = (ks.take (c * (q : Int)).toNat).map (fun x => request fmt x.entry) := by
    rw [List.map_take, ← hfb, List.take_left' hel]
  refine ⟨by rw [hcount, hm], by rw [hrep, hd]; push_cast; rfl, ?_, ?_⟩
  · rw [he, hd, hex]
  · rw [he, hd, List.length_append, hel]
    push_cast
    have : 0 ≤ c * (q : Int) := by positivity
    omega

/-- Witness of C18: limit 2 and three calls: `num_entries` is 1 after one report. -/
theorem count_after_n_adds_witness :
    (0 : Int) < 2 ∧ (2 : Int) ≤ INT_MAX ∧ 1 ≤ three_calls.length ∧
    (add_all (grpc_timers_log_create 2 ⟨1⟩ default_fmt, fresh_world [])
      three_calls).1.num_entries = ((three_calls.length : Int) - 1) % 2 + 1 :=
  ⟨by decide, by decide, by decide,
    (count_after_n_adds 2 (by decide) (by decide) ⟨1⟩ default_fmt (fresh_world [])
      three_calls (by decide)).1⟩

/-- C14: `M` threads that each make `K` calls of `grpc_timers_log_add` on one log of
limit `M*K/2`, a limit that `grpc_timers_log_create` admits (positive).  However the steps
of the threads interleave, once every thread has made its calls (and some schedule lets
them), `grpc_timers_log_destroy` leaves on the stream, after what was there before,
exactly `M*K` requests: those of the calls, each once, in some order, with the fields of
its call; on a stream that fails no write the accepted records are those of the calls,
each once. -/
theorem concurrent_adds_each_reported_once (M K : Nat) (hcap : 0 < M * K / 2)
    (hmax : ((M * K / 2 : Nat) : Int) ≤ INT_MAX) (dump : FILE) (fmt : String) (w : world)
    (todos : List (List add_call)) (hM : todos.length = M)
    (hK : ∀ td ∈ todos, td.length = K) (sched : List Nat)
    (hfin : finished (run_schedule
      (start (grpc_timers_log_create ((M * K / 2 : Nat) : Int) dump fmt) w todos) sched)) :
    (∃ s, finished (run_schedule
      (start (grpc_timers_log_create ((M * K / 2 : Nat) : Int) dump fmt) w todos) s)) ∧
    ((grpc_timers_log_destroy
        (run_schedule
          (start (grpc_timers_log_create ((M * K / 2 : Nat) : Int) dump fmt) w todos) sched).log
        (run_schedule
          (start (grpc_timers_log_create ((M * K / 2 : Nat) : Int) dump fmt) w todos) sched).w
      ).out.calls.drop w.out.calls.length).Perm
      (todos.flatten.map (fun k => request fmt k.entry)) ∧
    (grpc_timers_log_destroy
        (run_schedule
          (start (grpc_timers_log_create ((M * K / 2 : Nat) : Int) dump fmt) w todos) sched).log
        (run_schedule
          (start (grpc_timers_log_create ((M * K / 2 : Nat) : Int) dump fmt) w todos) sched).w
      ).out.calls.take w.out.calls.length = w.out.calls ∧
    (grpc_timers_log_destroy
        (run_schedule
          (start (grpc_timers_log_create ((M * K / 2 : Nat) : Int) dump fmt) w todos) sched).log
        (run_schedule
          (start (grpc_timers_log_create ((M * K / 2 : Nat) : Int) dump fmt) w todos) sched).w
      ).out.calls.length = w.out.calls.length + M * K ∧
    (w.out.faults = [] →
      ((grpc_timers_log_destroy
        (run_schedule
          (start (grpc_timers_log_create ((M * K / 2 : Nat) : Int) dump fmt) w todos) sched).log
        (run_schedule
          (start (grpc_timers_log_create ((M * K / 2 : Nat) : Int) dump fmt) w todos) sched).w
      ).out.data.drop w.out.data.length).Perm
      (todos.flatten.filterMap (fun k => record_text fmt k.entry))) := by
  have hc : (0 : Int) < ((M * K / 2 : Nat) : Int) := by exact_mod_cast hcap
  obtain ⟨done, hperm, hrun⟩ :=
    finished_run (grpc_timers_log_create ((M * K / 2 : Nat) : Int) dump fmt) w todos sched hfin
  have key := destroy_add_all_out _ hc hmax done
    (grpc_timers_log_create ((M * K / 2 : Nat) : Int) dump fmt) w (wf_create _ hc dump fmt)
  rw [← hrun, destroy_out (grpc_timers_log_create ((M * K / 2 : Nat) : Int) dump fmt),
    buffered_create, write_all_nil] at key
  have hf : (grpc_timers_log_create ((M * K / 2 : Nat) : Int) dump fmt).fmt = fmt := rfl
  rw [hf] at key
  simp only at key
  have hlen : done.length = M * K := by
    rw [hperm.length_eq, flatten_length todos K hK, hM]
  refine ⟨some_schedule_finishes _ w todos, ?_, ?_, ?_, ?_⟩
  · rw [key, write_all_requests, List.drop_left]
    exact hperm.map _
  · rw [key, write_all_requests, List.take_left]
  · rw [key, write_all_requests, List.length_append, List.length_map, hlen]
  · intro hh
    rw [key, (write_all_healthy fmt _ w.out hh).2, List.drop_left, List.filterMap_map]
    exact hperm.filterMap _

/-- Witness of C14: two threads with one call each on a log of limit 1,
their steps interleaved. -/
theorem concurrent_adds_each_reported_once_witness :
    0 < 2 * 1 / 2 ∧ ((2 * 1 / 2 : Nat) : Int) ≤ INT_MAX ∧
    ([three_calls.take 1, three_calls.drop 2] : List (List add_call)).length = 2 ∧
    (∀ td ∈ ([three_calls.take 1, three_calls.drop 2] : List (List add_call)),
      td.length = 1) ∧
    finished (run_schedule
      (start (grpc_timers_log_create ((2 * 1 / 2 : Nat) : Int) ⟨1⟩ default_fmt) (fresh_world [])
        [three_calls.take 1, three_calls.drop 2])
      [1, 0, 1, 0, 1, 1, 0, 1, 1, 1, 0, 1, 1, 0, 0, 0, 0, 0, 0, 0, 0, 0]) ∧
    (grpc_timers_log_destroy
        (run_schedule
          (start (grpc_timers_log_create ((2 * 1 / 2 : Nat) : Int) ⟨1⟩ default_fmt)
            (fresh_world []) [three_calls.take 1, three_calls.drop 2])
          [1, 0, 1, 0, 1, 1, 0, 1, 1, 1, 0, 1, 1, 0, 0, 0, 0, 0, 0, 0, 0, 0]).log
        (run_schedule
          (start (grpc_timers_log_create ((2 * 1 / 2 : Nat) : Int) ⟨1⟩ default_fmt)
            (fresh_world []) [three_calls.take 1, three_calls.drop 2])
          [1, 0, 1, 0, 1, 1, 0, 1, 1, 1, 0, 1, 1, 0, 0, 0, 0, 0, 0, 0, 0, 0]).w
      ).out.calls.length = 0 + 2 * 1 :=
  ⟨by decide, by decide, by decide, by decide, by decide,
    (concurrent_adds_each_reported_once 2 1 (by decide) (by decide) ⟨1⟩ default_fmt
      (fresh_world []) [three_calls.take 1, three_calls.drop 2] (by decide) (by decide)
      [1, 0, 1, 0, 1, 1, 0, 1, 1, 1, 0, 1, 1, 0, 0, 0, 0, 0, 0, 0, 0, 0] (by decide)).2.2.2.1⟩

end Timers
